import Mathlib

/-!
Shallow embedding of the time-clock application's correction and
auto-clockout consistency engine, together with proofs of the spec's
testable properties.

Timestamps are modelled as integers (milliseconds since epoch), hours as
rationals.  Mongoose `findByIdAndUpdate` / `updateMany` calls are modelled
as list maps; the schema's `pre('save')` hours hook is modelled only on the
code path that goes through `save`/`create`, mirroring the fact that query
updates do not trigger document middleware.
-/

namespace TimeApp

def msPerHour : Int := 1000 * 60 * 60

def msPerDay : Int := 1000 * 60 * 60 * 24

/-- Model of the `Employee` mongoose document (only the fields the
correction engine reads). -/
structure Employee where
  id : Nat
  isAdmin : Bool
deriving Repr, DecidableEq

/-- Model of the `TimeEntry` mongoose document. -/
structure TimeEntry where
  id : Nat
  employeeId : Nat
  clockIn : Int
  clockOut : Option Int
  hoursWorked : Option ℚ
  isAutoClockOut : Bool
  autoClockOutReason : Option String
  needsReview : Bool
  originalClockOut : Option Int
  adminCorrected : Bool
  correctedBy : Option Nat
  correctedAt : Option Int
  adminNotes : Option String
  updatedAt : Int
deriving Repr, DecidableEq

/-- Persistent state: the employees and time-entry collections, plus a
fresh-id counter for newly inserted entries. -/
structure ClockState where
  employees : List Employee
  entries : List TimeEntry
  nextId : Nat
deriving Repr, DecidableEq

/-- Hours between two millisecond timestamps: `diffMs / (1000 * 60 * 60)`. -/
def hoursBetween (clockIn clockOut : Int) : ℚ :=
  ((clockOut - clockIn : Int) : ℚ) / (msPerHour : ℚ)

/-- The active-entry query `{ employeeId, clockOut: null }`. -/
def isActiveFor (eid : Nat) (e : TimeEntry) : Bool :=
  e.employeeId == eid && e.clockOut.isNone

def findEmployee (s : ClockState) (eid : Nat) : Option Employee :=
  s.employees.find? (fun emp => emp.id == eid)

/-- The document inserted by a successful clock-in: `clockIn = now`,
`clockOut = null`, every other field at its schema default. -/
def newEntry (now : Int) (eid : Nat) (nid : Nat) : TimeEntry := {
  id := nid
  employeeId := eid
  clockIn := now
  clockOut := none
  hoursWorked := none
  isAutoClockOut := false
  autoClockOutReason := none
  needsReview := false
  originalClockOut := none
  adminCorrected := false
  correctedBy := none
  correctedAt := none
  adminNotes := none
  updatedAt := now }

/-- Clock-in handler (`POST /api/timeentries`, `action = "clockIn"`):
verifies the employee exists, rejects when an active entry exists, else
inserts a fresh open entry with `clockIn = now`. -/
def clockInOp (now : Int) (eid : Nat) (s : ClockState) :
    Except String (TimeEntry × ClockState) :=
  match findEmployee s eid with
  | none => .error "Employee not found"
  | some _ =>
    if s.entries.any (isActiveFor eid) then
      .error "Employee is already clocked in"
    else
      .ok (newEntry now eid s.nextId, { s with
        entries := s.entries ++ [newEntry now eid s.nextId]
        nextId := s.nextId + 1 })

/-- The clock-out route's update document: `clockOut := now` together with
the hours computed in the route itself. -/
def manualClose (now : Int) (active : TimeEntry) : TimeEntry :=
  { active with
    clockOut := some now
    hoursWorked := some (hoursBetween active.clockIn now)
    updatedAt := now }

/-- Clock-out handler (`POST /api/timeentries`, `action = "clockOut"`):
finds the active entry, computes hours in the route itself, and updates
the entry with `clockOut` and `hoursWorked`. -/
def clockOutOp (now : Int) (eid : Nat) (s : ClockState) :
    Except String (TimeEntry × ClockState) :=
  match findEmployee s eid with
  | none => .error "Employee not found"
  | some _ =>
    match s.entries.find? (isActiveFor eid) with
    | none => .error "No active clock-in found"
    | some active =>
      .ok (manualClose now active, { s with
        entries := s.entries.map
          (fun e => if e.id == active.id then manualClose now active else e) })

/-- Result shape of both auto-clockout operations
(`AutoClockoutResult` in `lib/auto-clockout.ts`). -/
structure ClockedOutInfo where
  employeeId : Nat
  clockInTime : Int
  clockOutTime : Int
  hoursWorked : ℚ
deriving Repr, DecidableEq

structure AutoClockoutResult where
  success : Bool
  clockedOutCount : Nat
  errors : List String
  clockedOutEmployees : List ClockedOutInfo
deriving Repr, DecidableEq

/-- One iteration of the `performAutoClockout` loop over an active entry.
`updateFails` models a per-entry storage failure being caught and pushed
onto the error list (the loop body's try/catch).  The non-dry-run update
sets `clockOut`, the auto flags and `needsReview := true` but does not
touch `hoursWorked` (a `findByIdAndUpdate` does not run the schema's
`pre('save')` hours hook, and the `findOneAndUpdate` hook body is empty).
The update document `autoClose` closes the entry at the computed closing
time and flags it for review; `hoursWorked` is absent from it. -/
def autoClose (autoTime nowTs : Int) (entry : TimeEntry) : TimeEntry :=
  { entry with
    clockOut := some autoTime
    isAutoClockOut := true
    autoClockOutReason := some "NO OVERTIME POLICY: Auto-clocked out at closing time"
    needsReview := true
    updatedAt := nowTs }

def autoClockoutStep (autoTime nowTs : Int) (dryRun : Bool)
    (updateFails : Nat → Bool) (acc : AutoClockoutResult × ClockState)
    (entry : TimeEntry) : AutoClockoutResult × ClockState :=
  let r := acc.1
  let st := acc.2
  if dryRun then
    let mockHours := hoursBetween entry.clockIn autoTime
    ({ r with
       clockedOutEmployees := r.clockedOutEmployees ++
         [{ employeeId := entry.employeeId
            clockInTime := entry.clockIn
            clockOutTime := autoTime
            hoursWorked := mockHours }] }, st)
  else if updateFails entry.id then
    ({ r with
       errors := r.errors ++
         ["Failed to auto-clockout employee " ++ toString entry.employeeId] }, st)
  else
    ({ r with
       clockedOutCount := r.clockedOutCount + 1
       clockedOutEmployees := r.clockedOutEmployees ++
         [{ employeeId := entry.employeeId
            clockInTime := entry.clockIn
            clockOutTime := autoTime
            hoursWorked := (autoClose autoTime nowTs entry).hoursWorked.getD 0 }] },
     { st with
       entries := st.entries.map
         (fun e => if e.id == entry.id then autoClose autoTime nowTs entry else e) })

/-- `performAutoClockout(targetDate, dryRun)`: snapshot all active entries,
process each independently, and flip `success` to `false` when the error
list is non-empty.  `autoTime` is the closing time computed from
`targetDate` by `getAutoClockoutTime`. -/
def performAutoClockout (autoTime nowTs : Int) (dryRun : Bool)
    (updateFails : Nat → Bool) (s : ClockState) :
    AutoClockoutResult × ClockState :=
  let activeEntries := s.entries.filter (fun e => e.clockOut.isNone)
  let init : AutoClockoutResult := {
    success := true
    clockedOutCount := 0
    errors := []
    clockedOutEmployees := [] }
  let out := activeEntries.foldl (autoClockoutStep autoTime nowTs dryRun updateFails) (init, s)
  (if out.1.errors.isEmpty then out.1 else { out.1 with success := false }, out.2)

/-- One iteration of the `performSelectiveAutoClockout` loop: find the
employee's active entry, validate the chosen time against `clockIn` only,
and close the entry with `needsReview := false` and the correction stamp.
`hoursWorked` is again left untouched by the query update: the update
document `selectiveClose` closes the entry at the admin-chosen time with
`needsReview := false` and the correction stamp. -/
def selectiveClose (t : Int) (adminId : Nat) (nowTs : Int)
    (active : TimeEntry) : TimeEntry :=
  { active with
    clockOut := some t
    isAutoClockOut := true
    autoClockOutReason := some "Manual auto-clockout by admin"
    needsReview := false
    adminCorrected := true
    correctedBy := some adminId
    correctedAt := some nowTs
    updatedAt := nowTs }

def selectiveStep (adminId : Nat) (nowTs : Int)
    (acc : AutoClockoutResult × ClockState) (item : Nat × Int) :
    AutoClockoutResult × ClockState :=
  let r := acc.1
  let st := acc.2
  match st.entries.find? (isActiveFor item.1) with
  | none =>
    ({ r with
       errors := r.errors ++
         ["No active time entry found for employee " ++ toString item.1] }, st)
  | some active =>
    if item.2 ≤ active.clockIn then
      ({ r with
         errors := r.errors ++ ["Clock-out time must be after clock-in time"] }, st)
    else
      ({ r with
         clockedOutCount := r.clockedOutCount + 1
         clockedOutEmployees := r.clockedOutEmployees ++
           [{ employeeId := item.1
              clockInTime := active.clockIn
              clockOutTime := item.2
              hoursWorked := (selectiveClose item.2 adminId nowTs active).hoursWorked.getD 0 }] },
       { st with
         entries := st.entries.map
           (fun e => if e.id == active.id
                     then selectiveClose item.2 adminId nowTs active else e) })

/-- `performSelectiveAutoClockout(selectedEmployees, adminEmployeeId)`:
fold the per-item step over the list; `success` becomes `false` only when
errors occurred and nothing was clocked out. -/
def performSelectiveAutoClockout (items : List (Nat × Int)) (adminId : Nat)
    (nowTs : Int) (s : ClockState) : AutoClockoutResult × ClockState :=
  let init : AutoClockoutResult := {
    success := true
    clockedOutCount := 0
    errors := []
    clockedOutEmployees := [] }
  let out := items.foldl (selectiveStep adminId nowTs) (init, s)
  (if !out.1.errors.isEmpty && out.1.clockedOutCount == 0
     then { out.1 with success := false } else out.1, out.2)

/-- `PUT /api/timeentries/[id]/correct`: admin check, closed-entry check,
then either mark-as-correct or replace the clock-out time.  The update
always clears `needsReview`, stamps the corrector, and overwrites
`adminNotes` with `adminNotes || null`; `originalClockOut` is populated
only on the first correction of an auto-clockout.  `hoursWorked` is not
recomputed (the route's `findOneAndUpdate` bypasses the `pre('save')`
hook and the update hook body is empty).  `markCorrectUpdate` is the
update document in mark-as-correct mode: the base update
(`needsReview := false`, corrector stamp, `adminNotes` overwritten with
`adminNotes || null`) plus `adminCorrected := true`. -/
def markCorrectUpdate (adminId : Nat) (nowTs : Int) (notes : Option String)
    (te : TimeEntry) : TimeEntry :=
  { te with
    needsReview := false
    correctedBy := some adminId
    correctedAt := some nowTs
    adminNotes := notes
    adminCorrected := true
    updatedAt := nowTs }

/-- The correction route's update document when a new clock-out time is
given: the base update plus the new `clockOut`, with `originalClockOut`
populated from the current `clockOut` only on the first correction of an
auto-clockout.  `hoursWorked` is not part of the update document. -/
def correctTimeUpdate (adminId : Nat) (nowTs : Int) (notes : Option String)
    (nco : Int) (te : TimeEntry) : TimeEntry :=
  { te with
    needsReview := false
    correctedBy := some adminId
    correctedAt := some nowTs
    adminNotes := notes
    clockOut := some nco
    adminCorrected := true
    originalClockOut := if te.originalClockOut.isNone && te.isAutoClockOut
                          then te.clockOut else te.originalClockOut
    updatedAt := nowTs }

def correctEntry (entryId adminId : Nat) (newClockOut : Option Int)
    (notes : Option String) (markAsCorrect : Bool) (nowTs : Int)
    (s : ClockState) : Except String (TimeEntry × ClockState) :=
  match findEmployee s adminId with
  | none => .error "Admin privileges required"
  | some admin =>
    if !admin.isAdmin then .error "Admin privileges required"
    else
      match s.entries.find? (fun e => e.id == entryId) with
      | none => .error "Time entry not found"
      | some te =>
        if te.clockOut.isNone then
          .error "Cannot correct an entry that is still active (not clocked out)"
        else if markAsCorrect && newClockOut.isNone then
          .ok (markCorrectUpdate adminId nowTs notes te, { s with
            entries := s.entries.map
              (fun e => if e.id == entryId
                        then markCorrectUpdate adminId nowTs notes te else e) })
        else
          match newClockOut with
          | some nco =>
            if nco ≤ te.clockIn then
              .error "Clock-out time must be after clock-in time"
            else if nowTs < nco then
              .error "Clock-out time cannot be in the future"
            else
              .ok (correctTimeUpdate adminId nowTs notes nco te, { s with
                entries := s.entries.map
                  (fun e => if e.id == entryId
                            then correctTimeUpdate adminId nowTs notes nco te else e) })
          | none =>
            .error "Either provide a new clock-out time or set markAsCorrect to true"

/-- The `mark-correct` bulk query: entries among `entryIds` that are
completed (`clockOut` exists and is non-null). -/
def batchMarkQuery (entryIds : List Nat) (e : TimeEntry) : Bool :=
  entryIds.contains e.id && e.clockOut.isSome

/-- The `mark-correct` bulk update document.  Unlike the single-entry
route, `adminNotes` is written only when notes were provided. -/
def batchMarkUpdate (adminId : Nat) (nowTs : Int) (notes : Option String)
    (e : TimeEntry) : TimeEntry :=
  { e with
    needsReview := false
    correctedBy := some adminId
    correctedAt := some nowTs
    adminNotes := match notes with
                  | some n => some n
                  | none => e.adminNotes
    adminCorrected := true
    updatedAt := nowTs }

/-- The `batch-correct` bulk query: completed entries among `entryIds`
whose `clockIn` is strictly before the uniform new clock-out time. -/
def batchTimeQuery (entryIds : List Nat) (nco : Int) (e : TimeEntry) : Bool :=
  entryIds.contains e.id && e.clockOut.isSome && decide (e.clockIn < nco)

/-- The `batch-correct` bulk update document: the mark-correct update plus
the uniform `clockOut`.  `hoursWorked` is absent (an `updateMany` does not
run the `pre('save')` hours hook). -/
def batchTimeUpdate (adminId : Nat) (nowTs : Int) (notes : Option String)
    (nco : Int) (e : TimeEntry) : TimeEntry :=
  { batchMarkUpdate adminId nowTs notes e with clockOut := some nco }

/-- `POST /api/timeentries/needs-review` batch operations.  `mark-correct`
bulk-updates the closed entries among `entryIds`; `batch-correct`
additionally validates the uniform time against `now` and silently skips
entries whose `clockIn` is not before it.  Unlike the single-entry route,
`adminNotes` is only written when notes were provided. -/
def batchCorrect (action : String) (entryIds : List Nat) (adminId : Nat)
    (clockOutTime : Option Int) (notes : Option String) (nowTs : Int)
    (s : ClockState) : Except String (Nat × ClockState) :=
  match findEmployee s adminId with
  | none => .error "Admin privileges required"
  | some admin =>
    if !admin.isAdmin then .error "Admin privileges required"
    else if action == "mark-correct" then
      .ok (s.entries.countP (batchMarkQuery entryIds), { s with
        entries := s.entries.map
          (fun e => if batchMarkQuery entryIds e
                    then batchMarkUpdate adminId nowTs notes e else e) })
    else if action == "batch-correct" && clockOutTime.isSome then
      match clockOutTime with
      | some nco =>
        if nowTs < nco then .error "Clock-out time cannot be in the future"
        else
          .ok (s.entries.countP (batchTimeQuery entryIds nco), { s with
            entries := s.entries.map
              (fun e => if batchTimeQuery entryIds nco e
                        then batchTimeUpdate adminId nowTs notes nco e else e) })
      | none => .error "Invalid action or missing required parameters"
    else .error "Invalid action or missing required parameters"

/-! Review grouping (`GET /api/timeentries/needs-review` grouped view):
the aggregation computes `daysSinceReview = ceil((now - updatedAt) / msPerDay)`
per flagged entry, takes the group's maximum, and buckets it into a
priority string. -/

/-- Ceiling of the exact quotient `a / b` for `b > 0`, mirroring Mongo's
`$ceil` of `$divide`. -/
def ceilDiv (a b : Int) : Int := -((-a).fdiv b)

/-- `$ceil($divide($subtract(now, updatedAt), 86400000))`. -/
def daysSinceReview (nowTs updatedAt : Int) : Int :=
  ceilDiv (nowTs - updatedAt) msPerDay

/-- `$max` of `daysSinceReview` over a group of flagged entries
(`oldestReviewDays`). -/
def oldestReviewDays (nowTs : Int) (updatedAts : List Int) : Int :=
  ((updatedAts.map (daysSinceReview nowTs)).max?).getD 0

/-- The `$cond` chain assigning the priority string. -/
def reviewPriority (oldest : Int) : String :=
  if 3 ≤ oldest then "high" else if 1 ≤ oldest then "medium" else "low"

/-- Priority assigned to an employee group whose flagged entries have the
given `updatedAt` stamps. -/
def groupPriority (nowTs : Int) (updatedAts : List Int) : String :=
  reviewPriority (oldestReviewDays nowTs updatedAts)

/-- Exact age, in milliseconds, of the oldest flagged entry of a group. -/
def maxAge (nowTs : Int) (updatedAts : List Int) : Int :=
  ((updatedAts.map (fun u => nowTs - u)).max?).getD 0

/-! Invariants and claim-level predicates over the operation embedding. -/

/-- Number of active entries (`clockOut = null`) an employee has. -/
def activeCount (s : ClockState) (eid : Nat) : Nat :=
  s.entries.countP (isActiveFor eid)

/-- The central invariant: at most one active entry per employee. -/
def AtMostOneActive (s : ClockState) : Prop :=
  ∀ eid, activeCount s eid ≤ 1

/-- Mongo document ids are unique within the collection. -/
def IdsUnique (s : ClockState) : Prop :=
  (s.entries.map (fun e => e.id)).Nodup

/-- Clock-in is rejected with `AlreadyClockedIn` whenever an active entry
exists for an existing employee. -/
def ClockInBlocks (s : ClockState) : Prop :=
  ∀ now eid, (findEmployee s eid).isSome →
    (∃ e ∈ s.entries, isActiveFor eid e = true) →
    clockInOp now eid s = .error "Employee is already clocked in"

def ClockInPreserves (s : ClockState) : Prop :=
  ∀ now eid ret s2, clockInOp now eid s = .ok (ret, s2) → AtMostOneActive s2

def ClockOutPreserves (s : ClockState) : Prop :=
  ∀ now eid ret s2, clockOutOp now eid s = .ok (ret, s2) → AtMostOneActive s2

def AutoPreserves (s : ClockState) : Prop :=
  ∀ autoTime nowTs dryRun uf,
    AtMostOneActive (performAutoClockout autoTime nowTs dryRun uf s).2

def SelectivePreserves (s : ClockState) : Prop :=
  ∀ items adminId nowTs,
    AtMostOneActive (performSelectiveAutoClockout items adminId nowTs s).2

def CorrectPreserves (s : ClockState) : Prop :=
  ∀ entryId adminId nco notes mark nowTs ret s2,
    correctEntry entryId adminId nco notes mark nowTs s = .ok (ret, s2) →
    AtMostOneActive s2

def BatchPreserves (s : ClockState) : Prop :=
  ∀ action entryIds adminId cot notes nowTs cnt s2,
    batchCorrect action entryIds adminId cot notes nowTs s = .ok (cnt, s2) →
    AtMostOneActive s2

/-- Serialized model of `n` concurrent clock-in calls for the same
employee (the route's transaction makes them serializable): apply
`clockInOp` repeatedly, counting successes. -/
def clockInRepeat (now : Int) (eid : Nat) : Nat → ClockState → Nat × ClockState
  | 0, s => (0, s)
  | n + 1, s =>
    match clockInOp now eid s with
    | .ok (_, s2) =>
      let rest := clockInRepeat now eid n s2
      (rest.1 + 1, rest.2)
    | .error _ => clockInRepeat now eid n s

/-- Of `n + 1` serialized clock-in calls, exactly one succeeds. -/
def ExactlyOneClockIn (s : ClockState) : Prop :=
  ∀ now eid n, (findEmployee s eid).isSome → activeCount s eid = 0 →
    (clockInRepeat now eid (n + 1) s).1 = 1

/-- The entry with this id was open (active) in state `s0`. -/
def OpenIn (s0 : ClockState) (id : Nat) : Prop :=
  ∃ e0 ∈ s0.entries, e0.id = id ∧ e0.clockOut = none

/-- Every entry that started open in `s0` and is closed in `st` carries
review flag `b`. -/
def ReviewFlagInv (b : Bool) (s0 st : ClockState) : Prop :=
  ∀ e ∈ st.entries, e.clockOut.isSome = true → OpenIn s0 e.id →
    e.needsReview = b

/-- A successful CorrectEntry clears `needsReview` on the returned and the
stored entry. -/
def CorrectClearsReview (s : ClockState) : Prop :=
  ∀ entryId adminId nco notes mark nowTs ret s2,
    correctEntry entryId adminId nco notes mark nowTs s = .ok (ret, s2) →
    ret.needsReview = false ∧
    ∀ e ∈ s2.entries, e.id = entryId → e.needsReview = false

/-- A successful mark-correct batch clears `needsReview` on every affected
(closed, listed) entry. -/
def BatchMarkClearsReview (s : ClockState) : Prop :=
  ∀ entryIds adminId cot notes nowTs cnt s2,
    batchCorrect "mark-correct" entryIds adminId cot notes nowTs s = .ok (cnt, s2) →
    ∀ e ∈ s2.entries, e.id ∈ entryIds → e.clockOut.isSome = true →
      e.needsReview = false

/-- Every entry closed by RunSelectiveAutoClockout ends with
`needsReview = false`. -/
def SelectiveClearsReview (s : ClockState) : Prop :=
  ∀ items adminId nowTs,
    ReviewFlagInv false s (performSelectiveAutoClockout items adminId nowTs s).2

/-- Every entry closed by a non-dry-run RunAutoClockout ends with
`needsReview = true`. -/
def AutoSetsReview (s : ClockState) : Prop :=
  ∀ autoTime nowTs uf,
    ReviewFlagInv true s (performAutoClockout autoTime nowTs false uf s).2

/-! Reporting engine (the per-employee report route): a UTC calendar model
and the hierarchical day/week/month/year aggregation. -/

def isLeapYear (y : Nat) : Bool :=
  (y % 4 == 0 && !(y % 100 == 0)) || y % 400 == 0

def daysInMonth (y m : Nat) : Nat :=
  if m == 2 then (if isLeapYear y then 29 else 28)
  else if m == 4 || m == 6 || m == 9 || m == 11 then 30
  else 31

def daysInYear (y : Nat) : Nat := if isLeapYear y then 366 else 365

/-- Days from 1970-01-01 to the start of year `1970 + n`. -/
def yearStartDayAux : Nat → Nat
  | 0 => 0
  | n + 1 => yearStartDayAux n + daysInYear (1970 + n)

/-- Days from 1970-01-01 to the start of year `y` (for `y ≥ 1970`). -/
def yearStartDay (y : Nat) : Nat := yearStartDayAux (y - 1970)

/-- Days from the start of year `y` to the first of month `m`. -/
def monthStartOffset (y : Nat) : Nat → Nat
  | 0 => 0
  | 1 => 0
  | m + 2 => monthStartOffset y (m + 1) + daysInMonth y (m + 1)

/-- Day number (days since epoch) of the calendar date `y-m-d`. -/
def dayNumberOfDate (y m d : Nat) : Nat :=
  yearStartDay y + monthStartOffset y m + (d - 1)

/-- A civil datetime as the JS `Date` methods expose it (UTC model). -/
structure DateTime where
  year : Nat
  month : Nat
  day : Nat
  msOfDay : Nat
deriving Repr, DecidableEq

/-- The millisecond timestamp of a civil datetime. -/
def tsOf (dt : DateTime) : Int :=
  (dayNumberOfDate dt.year dt.month dt.day : Int) * msPerDay + dt.msOfDay

/-- Well-formedness of a civil datetime (years from the epoch on). -/
def ValidDT (dt : DateTime) : Prop :=
  1970 ≤ dt.year ∧ 1 ≤ dt.month ∧ dt.month ≤ 12 ∧ 1 ≤ dt.day ∧
  dt.day ≤ daysInMonth dt.year dt.month ∧ (dt.msOfDay : Int) < msPerDay

/-- Stored time entry as the report route reads it. -/
structure REntry where
  employeeId : Nat
  clockIn : DateTime
  clockOut : Option Int
  hoursWorked : Option ℚ
deriving Repr, DecidableEq

/-- `getWeekNumber(date, monthStart)`: floor the day difference, then
floor-divide by 7 and add 1 (weeks are 7-day windows anchored to the 1st
of the month). -/
def getWeekNumber (ts monthStartTs : Int) : Int :=
  ((ts - monthStartTs).fdiv msPerDay).fdiv 7 + 1

/-- `formatDate` (the ISO date string used as day-bucket key), modelled as
the day number of the timestamp. -/
def dayKey (ts : Int) : Int := ts.fdiv msPerDay

/-- `entry.hoursWorked || 0`. -/
def hwOf (e : REntry) : ℚ := e.hoursWorked.getD 0

structure RDay where
  dayNum : Int
  hours : ℚ
deriving Repr, DecidableEq

structure RWeek where
  weekNumber : Int
  totalHours : ℚ
  days : List RDay
deriving Repr, DecidableEq

structure RMonth where
  month : Nat
  totalHours : ℚ
  weeks : List RWeek
deriving Repr, DecidableEq

structure RYear where
  year : Nat
  totalHours : ℚ
  months : List RMonth
deriving Repr, DecidableEq

structure RSummary where
  totalEntries : Nat
  totalHours : ℚ
  averageHoursPerDay : ℚ
  daysWorked : Nat
deriving Repr, DecidableEq

/-- One day bucket: all entries of the week whose clock-in date is this
day; the day's hours accumulate their `hoursWorked || 0`. -/
def buildDay (wEs : List REntry) (dn : Int) : RDay :=
  { dayNum := dn
    hours := ((wEs.filter (fun e => dayKey (tsOf e.clockIn) == dn)).map hwOf).sum }

/-- One week bucket: entries of the month with this week number, spread
over the days from the week's start to its (month-clamped) end. -/
def buildWeek (y m : Nat) (mEs : List REntry) (w : Int) : RWeek :=
  let mStartTs := tsOf (DateTime.mk y m 1 0)
  let mEndTs := tsOf (DateTime.mk y m (daysInMonth y m) 0)
  let wStart := dayKey mStartTs + (w - 1) * 7
  let wEnd := min (wStart + 6) (dayKey mEndTs)
  let wEs := mEs.filter (fun e => getWeekNumber (tsOf e.clockIn) mStartTs == w)
  let days := (List.range (wEnd + 1 - wStart).toNat).map
    (fun i : Nat => buildDay wEs (wStart + i))
  { weekNumber := w
    totalHours := (days.map (fun d => d.hours)).sum
    days := days }

/-- One month bucket: entries whose clock-in month is `m`, spread over the
month's weeks (`weeksInMonth = getWeekNumber(monthEnd, monthStart)`). -/
def buildMonth (y : Nat) (es : List REntry) (m : Nat) : RMonth :=
  let mEs := es.filter (fun e => e.clockIn.month == m)
  let mStartTs := tsOf (DateTime.mk y m 1 0)
  let mEndTs := tsOf (DateTime.mk y m (daysInMonth y m) 0)
  let weeksInMonth := getWeekNumber mEndTs mStartTs
  let weeks := (List.range weeksInMonth.toNat).map
    (fun i : Nat => buildWeek y m mEs ((i : Int) + 1))
  { month := m
    totalHours := (weeks.map (fun wk => wk.totalHours)).sum
    weeks := weeks }

/-- The reporting window: the whole year, or one month when requested
(`endDate` carries 23:59:59.999). -/
def reportWindow (y : Nat) (monthQ : Option Nat) : Int × Int :=
  match monthQ with
  | some m => (tsOf (DateTime.mk y m 1 0),
               tsOf (DateTime.mk y m (daysInMonth y m) 0) + (msPerDay - 1))
  | none => (tsOf (DateTime.mk y 1 1 0),
             tsOf (DateTime.mk y 12 31 0) + (msPerDay - 1))

/-- The report query: this employee's completed entries with non-null
hours whose clock-in lies in the window. -/
def windowEntries (emp y : Nat) (monthQ : Option Nat)
    (entries : List REntry) : List REntry :=
  entries.filter (fun e =>
    e.employeeId == emp && e.clockOut.isSome && e.hoursWorked.isSome &&
    decide ((reportWindow y monthQ).1 ≤ tsOf e.clockIn) &&
    decide (tsOf e.clockIn ≤ (reportWindow y monthQ).2))

/-- `BuildReport(employeeId, year, month?)`: process the requested months
(all twelve, or just one), keep months with data (or the requested one),
and compute the summary statistics exactly as the route does
(`averageHoursPerDay` divides by the entry count, and `daysWorked` is the
entry count). The months to process: all twelve, or just the requested
one. -/
def monthsToProcess (monthQ : Option Nat) : List Nat :=
  match monthQ with
  | some m => [m]
  | none => List.range' 1 12

def buildReport (emp y : Nat) (monthQ : Option Nat)
    (entries : List REntry) : RYear × RSummary :=
  let es := windowEntries emp y monthQ entries
  let allMonths := (monthsToProcess monthQ).map (buildMonth y es)
  let months := allMonths.filter
    (fun M => decide (0 < M.totalHours) || monthQ.isSome)
  let yearly : RYear := {
    year := y
    totalHours := (months.map (fun M => M.totalHours)).sum
    months := months }
  let summary : RSummary := {
    totalEntries := es.length
    totalHours := yearly.totalHours
    averageHoursPerDay := if 0 < es.length
                            then yearly.totalHours / (es.length : ℚ) else 0
    daysWorked := es.length }
  (yearly, summary)

/-- Sum of every day-level `hours` value appearing in the report. -/
def reportDaySum (Y : RYear) : ℚ :=
  (Y.months.map (fun M =>
    (M.weeks.map (fun W => (W.days.map (fun D => D.hours)).sum)).sum)).sum

/-- The claim's reference predicate: a completed entry of this employee
whose clock-in lies in the reporting window. -/
def closedInWindow (emp y : Nat) (monthQ : Option Nat) (e : REntry) : Bool :=
  e.employeeId == emp && e.clockOut.isSome &&
  decide ((reportWindow y monthQ).1 ≤ tsOf e.clockIn) &&
  decide (tsOf e.clockIn ≤ (reportWindow y monthQ).2)

lemma ediv_le_iff {a b c : Int} (hc : 0 < c) : a / c ≤ b ↔ a < (b + 1) * c := by
  rw [show (a / c ≤ b ↔ a / c < b + 1) from by omega, Int.ediv_lt_iff_lt_mul hc]

lemma le_ceilDiv_iff {a d k : Int} (hd : 0 < d) : k ≤ ceilDiv a d ↔ (k - 1) * d < a := by
  unfold ceilDiv
  rw [Int.fdiv_eq_ediv _ hd.le, le_neg, ediv_le_iff hd,
      show (-k + 1) * d = -((k - 1) * d) from by ring, neg_lt_neg_iff]

lemma ceilDiv_mono {d : Int} (hd : 0 < d) : Monotone (fun a => ceilDiv a d) := by
  intro a b hab
  simp only [ceilDiv, Int.fdiv_eq_ediv _ hd.le]
  have := Int.ediv_le_ediv hd (neg_le_neg hab)
  omega

lemma foldl_max_map (f : Int → Int) (hf : Monotone f) :
    ∀ (l : List Int) (x : Int), (l.map f).foldl max (f x) = f (l.foldl max x)
  | [], _ => rfl
  | y :: ys, x => by
    simp only [List.map_cons, List.foldl_cons, ← hf.map_max]
    exact foldl_max_map f hf ys (max x y)

lemma msPerDay_pos : (0 : Int) < msPerDay := by norm_num [msPerDay]

lemma oldestReviewDays_eq_ceil (nowTs : Int) (l : List Int) (hl : l ≠ []) :
    oldestReviewDays nowTs l = ceilDiv (maxAge nowTs l) msPerDay := by
  have hmono : Monotone (fun a => ceilDiv a msPerDay) := ceilDiv_mono msPerDay_pos
  match l, hl with
  | u :: us, _ =>
    show (((u :: us).map (daysSinceReview nowTs)).max?).getD 0
        = ceilDiv ((((u :: us).map (fun v => nowTs - v)).max?).getD 0) msPerDay
    rw [show (u :: us).map (daysSinceReview nowTs)
          = ((u :: us).map (fun v => nowTs - v)).map (fun a => ceilDiv a msPerDay) from by
        rw [List.map_map]; rfl]
    rw [List.map_cons, List.map_cons]
    show ((us.map (fun v => nowTs - v)).map (fun a => ceilDiv a msPerDay)).foldl max
          (ceilDiv (nowTs - u) msPerDay)
        = ceilDiv ((us.map (fun v => nowTs - v)).foldl max (nowTs - u)) msPerDay
    exact foldl_max_map _ hmono _ _

/-- C5 counterexample: an employee whose only flagged entry is 2 hours old
(`now - updatedAt = 7200000 ms`) is grouped "medium", not "low", because
the aggregation takes the ceiling of the fractional day age. -/
theorem groupPriority_two_hours_is_medium :
    groupPriority 7200000 [0] = "medium" ∧ groupPriority 7200000 [0] ≠ "low" :=
  ⟨rfl, by decide⟩

/-- C5 (amended): `GroupByEmployeeNeedingReview` buckets an employee group
by the ceiling of the oldest flagged entry's age in days: priority is
"high" iff that age exceeds 2 days (so the ceiling is at least 3),
"medium" iff the age is positive but at most 2 days, and "low" iff the age
is non-positive; a 2-hour-old entry therefore gets "medium", not "low". -/
theorem groupPriority_buckets (nowTs : Int) (l : List Int) (hl : l ≠ []) :
    (groupPriority nowTs l = "high" ↔ 2 * msPerDay < maxAge nowTs l) ∧
    (groupPriority nowTs l = "medium" ↔
      0 < maxAge nowTs l ∧ maxAge nowTs l ≤ 2 * msPerDay) ∧
    (groupPriority nowTs l = "low" ↔ maxAge nowTs l ≤ 0) := by
  have hdpos := msPerDay_pos
  have hold := oldestReviewDays_eq_ceil nowTs l hl
  have h3 : (3 ≤ oldestReviewDays nowTs l) ↔ 2 * msPerDay < maxAge nowTs l := by
    rw [hold, le_ceilDiv_iff msPerDay_pos]
    constructor <;> intro h <;> linarith
  have h1 : (1 ≤ oldestReviewDays nowTs l) ↔ 0 < maxAge nowTs l := by
    rw [hold, le_ceilDiv_iff msPerDay_pos]
    constructor <;> intro h <;> linarith
  unfold groupPriority reviewPriority
  by_cases hc3 : 3 ≤ oldestReviewDays nowTs l
  · have hM := h3.mp hc3
    rw [if_pos hc3]
    exact ⟨iff_of_true rfl hM,
           iff_of_false (by decide) (by intro hc; linarith [hc.2]),
           iff_of_false (by decide) (by intro hc; linarith)⟩
  · have hM2 : maxAge nowTs l ≤ 2 * msPerDay := by
      by_contra hcon
      exact hc3 (h3.mpr (by linarith))
    rw [if_neg hc3]
    by_cases hc1 : 1 ≤ oldestReviewDays nowTs l
    · have hM := h1.mp hc1
      rw [if_pos hc1]
      exact ⟨iff_of_false (by decide) (by intro hc; linarith),
             iff_of_true rfl ⟨hM, hM2⟩,
             iff_of_false (by decide) (by intro hc; linarith)⟩
    · have hM : maxAge nowTs l ≤ 0 := by
        by_contra hcon
        exact hc1 (h1.mpr (by linarith))
      rw [if_neg hc1]
      exact ⟨iff_of_false (by decide) (by intro hc; linarith),
             iff_of_false (by decide) (by intro hc; linarith [hc.1]),
             iff_of_true rfl hM⟩

/-- Witness for `groupPriority_buckets` at a concrete 2-hour-old group. -/
theorem groupPriority_buckets_witness :
    (groupPriority 7200000 [0] = "high" ↔ 2 * msPerDay < maxAge 7200000 [0]) ∧
    (groupPriority 7200000 [0] = "medium" ↔
      0 < maxAge 7200000 [0] ∧ maxAge 7200000 [0] ≤ 2 * msPerDay) ∧
    (groupPriority 7200000 [0] = "low" ↔ maxAge 7200000 [0] ≤ 0) :=
  groupPriority_buckets 7200000 [0] (by decide)

/-! Preservation of the at-most-one-active invariant. -/

lemma countP_map_le (l : List TimeEntry) (f : TimeEntry → TimeEntry) (p : TimeEntry → Bool)
    (hf : ∀ e, p (f e) = true → p e = true) :
    (l.map f).countP p ≤ l.countP p := by
  rw [List.countP_map]
  exact List.countP_mono_left (fun e _ h => hf e h)

lemma atMostOne_map (s : ClockState) (f : TimeEntry → TimeEntry)
    (hf : ∀ eid e, isActiveFor eid (f e) = true → isActiveFor eid e = true)
    (h : AtMostOneActive s) :
    AtMostOneActive { s with entries := s.entries.map f } := by
  intro eid
  exact le_trans (countP_map_le s.entries f (isActiveFor eid) (hf eid)) (h eid)

lemma isActiveFor_update_closed (eid target : Nat) (u : TimeEntry)
    (hu : u.clockOut.isSome = true) (e : TimeEntry) :
    isActiveFor eid (if e.id == target then u else e) = true →
    isActiveFor eid e = true := by
  intro h
  by_cases hc : e.id == target
  · rw [if_pos hc] at h
    unfold isActiveFor at h
    cases hco : u.clockOut with
    | none => rw [hco] at hu; cases hu
    | some v => rw [hco] at h; simp at h
  · rwa [if_neg hc] at h

lemma isActiveFor_cond_update (eid : Nat) (q : TimeEntry → Bool)
    (u : TimeEntry → TimeEntry)
    (hu : ∀ e, isActiveFor eid (u e) = true → isActiveFor eid e = true)
    (e : TimeEntry) :
    isActiveFor eid (if q e then u e else e) = true →
    isActiveFor eid e = true := by
  by_cases hc : q e = true
  · rw [if_pos hc]; exact hu e
  · rw [if_neg hc]; exact id

lemma clockInOp_blocks (s : ClockState) : ClockInBlocks s := by
  intro now eid hemp hex
  have hany : s.entries.any (isActiveFor eid) = true := by
    obtain ⟨e, he1, he2⟩ := hex
    exact List.any_eq_true.mpr ⟨e, he1, he2⟩
  unfold clockInOp
  cases he : findEmployee s eid with
  | none => rw [he] at hemp; exact absurd hemp (by simp)
  | some emp => simp [hany]

lemma clockInOp_preserves (s : ClockState) (h : AtMostOneActive s) :
    ClockInPreserves s := by
  intro now eid ret s2 hok
  unfold clockInOp at hok
  cases hemp : findEmployee s eid with
  | none => simp only [hemp] at hok; cases hok
  | some emp =>
    simp only [hemp] at hok
    by_cases hany : s.entries.any (isActiveFor eid) = true
    · rw [if_pos hany] at hok; cases hok
    · rw [if_neg hany] at hok
      simp only [Except.ok.injEq, Prod.mk.injEq] at hok
      obtain ⟨-, hs2⟩ := hok
      subst hs2
      intro eid2
      show (s.entries ++ [newEntry now eid s.nextId]).countP (isActiveFor eid2) ≤ 1
      rw [List.countP_append]
      by_cases heq : eid2 = eid
      · subst heq
        have h0 : s.entries.countP (isActiveFor eid2) = 0 := by
          rw [List.countP_eq_zero]
          intro a ha
          exact List.any_eq_false.mp (Bool.not_eq_true _ ▸ hany) a ha
        rw [h0]
        simp [List.countP_cons, isActiveFor, newEntry]
      · have h1 : List.countP (isActiveFor eid2) [newEntry now eid s.nextId] = 0 := by
          simp [List.countP_cons, isActiveFor, newEntry, Ne.symm heq]
        rw [h1]
        simpa using h eid2

lemma clockOutOp_preserves (s : ClockState) (h : AtMostOneActive s) :
    ClockOutPreserves s := by
  intro now eid ret s2 hok
  unfold clockOutOp at hok
  cases hemp : findEmployee s eid with
  | none => simp only [hemp] at hok; cases hok
  | some emp =>
    simp only [hemp] at hok
    cases hfind : s.entries.find? (isActiveFor eid) with
    | none => simp only [hfind] at hok; cases hok
    | some active =>
      simp only [hfind] at hok
      simp only [Except.ok.injEq, Prod.mk.injEq] at hok
      obtain ⟨-, hs2⟩ := hok
      subst hs2
      exact atMostOne_map s _
        (fun eid2 e =>
          isActiveFor_update_closed eid2 active.id (manualClose now active) rfl e) h

/-- Inversion of a successful single-entry correction. -/
lemma correctEntry_ok_inv (entryId adminId : Nat) (nco : Option Int)
    (notes : Option String) (mark : Bool) (nowTs : Int) (s : ClockState)
    (ret : TimeEntry) (s2 : ClockState)
    (hok : correctEntry entryId adminId nco notes mark nowTs s = .ok (ret, s2)) :
    ∃ te, s.entries.find? (fun e => e.id == entryId) = some te ∧
      te.clockOut.isNone = false ∧
      s2 = { s with
        entries := s.entries.map (fun e => if e.id == entryId then ret else e) } ∧
      ((mark = true ∧ nco = none ∧ ret = markCorrectUpdate adminId nowTs notes te) ∨
       (∃ c, nco = some c ∧ te.clockIn < c ∧ c ≤ nowTs ∧
             ret = correctTimeUpdate adminId nowTs notes c te)) := by
  unfold correctEntry at hok
  cases hemp : findEmployee s adminId with
  | none => simp only [hemp] at hok; cases hok
  | some admin =>
    simp only [hemp] at hok
    by_cases hadm : admin.isAdmin = true
    · rw [if_neg (by simp [hadm])] at hok
      cases hfind : s.entries.find? (fun e => e.id == entryId) with
      | none => simp only [hfind] at hok; cases hok
      | some te =>
        simp only [hfind] at hok
        by_cases hco : te.clockOut.isNone = true
        · rw [if_pos hco] at hok; cases hok
        · rw [if_neg hco] at hok
          by_cases hmn : (mark && nco.isNone) = true
          · rw [if_pos hmn] at hok
            simp only [Except.ok.injEq, Prod.mk.injEq] at hok
            obtain ⟨hret, hs2⟩ := hok
            subst hs2
            simp only [Bool.and_eq_true] at hmn
            obtain ⟨hm, hn⟩ := hmn
            refine ⟨te, rfl, Bool.not_eq_true _ ▸ hco, ?_,
              Or.inl ⟨hm, Option.isNone_iff_eq_none.mp hn, hret.symm⟩⟩
            rw [hret]
          · rw [if_neg hmn] at hok
            cases hnco : nco with
            | none => simp only [hnco] at hok; cases hok
            | some c =>
              simp only [hnco] at hok
              by_cases hle : c ≤ te.clockIn
              · rw [if_pos hle] at hok; cases hok
              · rw [if_neg hle] at hok
                by_cases hfut : nowTs < c
                · rw [if_pos hfut] at hok; cases hok
                · rw [if_neg hfut] at hok
                  simp only [Except.ok.injEq, Prod.mk.injEq] at hok
                  obtain ⟨hret, hs2⟩ := hok
                  subst hs2
                  refine ⟨te, rfl, Bool.not_eq_true _ ▸ hco, ?_,
                    Or.inr ⟨c, rfl, lt_of_not_le hle, le_of_not_lt hfut, hret.symm⟩⟩
                  rw [hret]
    · rw [if_pos (by simp [hadm])] at hok; cases hok

lemma correctEntry_preserves (s : ClockState) (h : AtMostOneActive s) :
    CorrectPreserves s := by
  intro entryId adminId nco notes mark nowTs ret s2 hok
  obtain ⟨te, hfind, hco, hs2, hcases⟩ :=
    correctEntry_ok_inv entryId adminId nco notes mark nowTs s ret s2 hok
  subst hs2
  have hsome : te.clockOut.isSome = true := by
    cases hcl : te.clockOut with
    | none => rw [hcl] at hco; simp at hco
    | some v => rfl
  apply atMostOne_map s _ _ h
  intro eid e
  apply isActiveFor_update_closed eid entryId ret _ e
  rcases hcases with ⟨-, -, hret⟩ | ⟨c, -, -, -, hret⟩
  · subst hret
    simpa [markCorrectUpdate] using hsome
  · subst hret
    rfl

/-- Inversion of a successful batch operation. -/
lemma batchCorrect_ok_inv (action : String) (entryIds : List Nat)
    (adminId : Nat) (cot : Option Int) (notes : Option String) (nowTs : Int)
    (s : ClockState) (cnt : Nat) (s2 : ClockState)
    (hok : batchCorrect action entryIds adminId cot notes nowTs s = .ok (cnt, s2)) :
    (action = "mark-correct" ∧ s2 = { s with
      entries := s.entries.map
        (fun e => if batchMarkQuery entryIds e
                  then batchMarkUpdate adminId nowTs notes e else e) }) ∨
    (action = "batch-correct" ∧ ∃ nco, cot = some nco ∧ nco ≤ nowTs ∧
      s2 = { s with
        entries := s.entries.map
          (fun e => if batchTimeQuery entryIds nco e
                    then batchTimeUpdate adminId nowTs notes nco e else e) }) := by
  unfold batchCorrect at hok
  cases hemp : findEmployee s adminId with
  | none => simp only [hemp] at hok; cases hok
  | some admin =>
    simp only [hemp] at hok
    by_cases hadm : admin.isAdmin = true
    · rw [if_neg (by simp [hadm])] at hok
      by_cases hmk : (action == "mark-correct") = true
      · rw [if_pos hmk] at hok
        simp only [Except.ok.injEq, Prod.mk.injEq] at hok
        exact Or.inl ⟨eq_of_beq hmk, hok.2.symm⟩
      · rw [if_neg hmk] at hok
        by_cases hbc : (action == "batch-correct" && cot.isSome) = true
        · rw [if_pos hbc] at hok
          cases hcot : cot with
          | none => simp only [hcot] at hok; cases hok
          | some nco =>
            simp only [hcot] at hok
            by_cases hfut : nowTs < nco
            · rw [if_pos hfut] at hok; cases hok
            · rw [if_neg hfut] at hok
              simp only [Except.ok.injEq, Prod.mk.injEq] at hok
              simp only [Bool.and_eq_true] at hbc
              exact Or.inr ⟨eq_of_beq hbc.1, nco, rfl, le_of_not_lt hfut, hok.2.symm⟩
        · rw [if_neg hbc] at hok; cases hok
    · rw [if_pos (by simp [hadm])] at hok; cases hok

lemma batchCorrect_preserves (s : ClockState) (h : AtMostOneActive s) :
    BatchPreserves s := by
  intro action entryIds adminId cot notes nowTs cnt s2 hok
  rcases batchCorrect_ok_inv action entryIds adminId cot notes nowTs s cnt s2 hok with
    ⟨-, hs2⟩ | ⟨-, nco, -, -, hs2⟩
  · subst hs2
    apply atMostOne_map s _ _ h
    intro eid e
    apply isActiveFor_cond_update eid (batchMarkQuery entryIds) _ _ e
    intro e2 h2
    simpa [batchMarkUpdate, isActiveFor] using h2
  · subst hs2
    apply atMostOne_map s _ _ h
    intro eid e
    apply isActiveFor_cond_update eid (batchTimeQuery entryIds nco) _ _ e
    intro e2 h2
    simp [batchTimeUpdate, batchMarkUpdate, isActiveFor] at h2

lemma foldl_state_preserves {α : Type}
    (step : AutoClockoutResult × ClockState → α → AutoClockoutResult × ClockState)
    (hstep : ∀ acc a, AtMostOneActive acc.2 → AtMostOneActive (step acc a).2) :
    ∀ (l : List α) (acc : AutoClockoutResult × ClockState),
      AtMostOneActive acc.2 → AtMostOneActive (l.foldl step acc).2
  | [], _, h => h
  | x :: xs, acc, h =>
    foldl_state_preserves step hstep xs (step acc x) (hstep acc x h)

lemma autoClockoutStep_state_preserves (autoTime nowTs : Int) (dryRun : Bool)
    (uf : Nat → Bool) (acc : AutoClockoutResult × ClockState) (entry : TimeEntry)
    (h : AtMostOneActive acc.2) :
    AtMostOneActive (autoClockoutStep autoTime nowTs dryRun uf acc entry).2 := by
  simp only [autoClockoutStep]
  split
  · exact h
  · split
    · exact h
    · exact atMostOne_map acc.2 _
        (fun eid e => isActiveFor_update_closed eid entry.id
          (autoClose autoTime nowTs entry) rfl e) h

lemma selectiveStep_state_preserves (adminId : Nat) (nowTs : Int)
    (acc : AutoClockoutResult × ClockState) (item : Nat × Int)
    (h : AtMostOneActive acc.2) :
    AtMostOneActive (selectiveStep adminId nowTs acc item).2 := by
  simp only [selectiveStep]
  split
  · exact h
  next active hfind =>
    split
    · exact h
    · exact atMostOne_map acc.2 _
        (fun eid e => isActiveFor_update_closed eid active.id
          (selectiveClose item.2 adminId nowTs active) rfl e) h

lemma performAutoClockout_preserves (s : ClockState) (h : AtMostOneActive s) :
    AutoPreserves s := by
  intro autoTime nowTs dryRun uf
  exact foldl_state_preserves _
    (autoClockoutStep_state_preserves autoTime nowTs dryRun uf) _ _ h

lemma performSelectiveAutoClockout_preserves (s : ClockState)
    (h : AtMostOneActive s) : SelectivePreserves s := by
  intro items adminId nowTs
  exact foldl_state_preserves _
    (selectiveStep_state_preserves adminId nowTs) _ _ h

lemma clockInRepeat_blocked (now : Int) (eid : Nat) :
    ∀ (m : Nat) (s : ClockState), (findEmployee s eid).isSome = true →
      s.entries.any (isActiveFor eid) = true →
      clockInRepeat now eid m s = (0, s)
  | 0, _, _, _ => rfl
  | m + 1, s, hemp, hany => by
    have herr : clockInOp now eid s = .error "Employee is already clocked in" := by
      unfold clockInOp
      cases he : findEmployee s eid with
      | none => rw [he] at hemp; exact absurd hemp (by simp)
      | some emp => simp [hany]
    unfold clockInRepeat
    rw [herr]
    exact clockInRepeat_blocked now eid m s hemp hany

lemma clockInRepeat_once (s : ClockState) : ExactlyOneClockIn s := by
  intro now eid n hemp hcnt
  have hany : s.entries.any (isActiveFor eid) = false := by
    rw [List.any_eq_false]
    intro e he hp
    have h0 := List.countP_eq_zero.mp hcnt e he
    exact h0 hp
  have hok : clockInOp now eid s = .ok (newEntry now eid s.nextId, { s with
      entries := s.entries ++ [newEntry now eid s.nextId]
      nextId := s.nextId + 1 }) := by
    unfold clockInOp
    cases he : findEmployee s eid with
    | none => rw [he] at hemp; exact absurd hemp (by simp)
    | some emp => simp [hany]
  unfold clockInRepeat
  rw [hok]
  have hemp2 : (findEmployee { s with
      entries := s.entries ++ [newEntry now eid s.nextId]
      nextId := s.nextId + 1 } eid).isSome = true := hemp
  have hany2 : (s.entries ++ [newEntry now eid s.nextId]).any (isActiveFor eid) = true := by
    rw [List.any_append]
    have : (isActiveFor eid) (newEntry now eid s.nextId) = true := by
      simp [isActiveFor, newEntry]
    simp [this]
  show (clockInRepeat now eid n { s with
      entries := s.entries ++ [newEntry now eid s.nextId]
      nextId := s.nextId + 1 }).1 + 1 = 1
  rw [clockInRepeat_blocked now eid n _ hemp2 hany2]

/-- C1: at every state satisfying the at-most-one-active-entry invariant,
ClockIn fails with "Employee is already clocked in" whenever an active
entry exists for that (existing) employee, every operation — ClockIn,
ClockOut, RunAutoClockout, RunSelectiveAutoClockout, CorrectEntry,
BatchCorrect — preserves the invariant, and of `n + 1` serialized ClockIn
calls for the same employee exactly one succeeds. -/
theorem atMostOneActive_invariant (s : ClockState) (hinv : AtMostOneActive s) :
    ClockInBlocks s ∧ ClockInPreserves s ∧ ClockOutPreserves s ∧
    AutoPreserves s ∧ SelectivePreserves s ∧ CorrectPreserves s ∧
    BatchPreserves s ∧ ExactlyOneClockIn s :=
  ⟨clockInOp_blocks s, clockInOp_preserves s hinv, clockOutOp_preserves s hinv,
   performAutoClockout_preserves s hinv,
   performSelectiveAutoClockout_preserves s hinv,
   correctEntry_preserves s hinv, batchCorrect_preserves s hinv,
   clockInRepeat_once s⟩

/-- Witness for `atMostOneActive_invariant` at a concrete one-admin state. -/
theorem atMostOneActive_invariant_witness :
    AtMostOneActive (ClockState.mk [Employee.mk 1 true] [] 0) ∧
    (ClockInBlocks (ClockState.mk [Employee.mk 1 true] [] 0) ∧
     ClockInPreserves (ClockState.mk [Employee.mk 1 true] [] 0) ∧
     ClockOutPreserves (ClockState.mk [Employee.mk 1 true] [] 0) ∧
     AutoPreserves (ClockState.mk [Employee.mk 1 true] [] 0) ∧
     SelectivePreserves (ClockState.mk [Employee.mk 1 true] [] 0) ∧
     CorrectPreserves (ClockState.mk [Employee.mk 1 true] [] 0) ∧
     BatchPreserves (ClockState.mk [Employee.mk 1 true] [] 0) ∧
     ExactlyOneClockIn (ClockState.mk [Employee.mk 1 true] [] 0)) :=
  ⟨fun _ => Nat.zero_le 1,
   atMostOneActive_invariant (ClockState.mk [Employee.mk 1 true] [] 0)
     (fun _ => Nat.zero_le 1)⟩

/-- C2 evaluation (code bug): a successful CorrectEntry that moves
`clockOut` from 1h to 2h after clock-in leaves `hoursWorked` at the stale
value 1 instead of the recomputed 2 hours, and a non-dry-run
RunAutoClockout closes an open entry with `hoursWorked` still null — and
accepts a closing time before `clockIn` — because those query updates
bypass the schema's `pre('save')` hours hook. -/
theorem hoursWorked_stale_after_updates :
    ((correctEntry 0 1 (some 7200000) none false 86400000
        (ClockState.mk [Employee.mk 1 true]
          [TimeEntry.mk 0 2 0 (some 3600000) (some 1) true none true none
            false none none none 3600000] 5)).map
      (fun p => (p.1.clockOut, p.1.hoursWorked)) = .ok (some 7200000, some 1)) ∧
    hoursBetween 0 7200000 = 2 ∧
    ((performAutoClockout 3600000 3600000 false (fun _ => false)
        (ClockState.mk [Employee.mk 1 true]
          [TimeEntry.mk 0 2 7200000 none none false none false none
            false none none none 0] 5)).2.entries.map
      (fun e => (e.clockIn, e.clockOut, e.hoursWorked))
      = [(7200000, some 3600000, none)]) := by
  refine ⟨rfl, ?_, rfl⟩
  norm_num [hoursBetween, msPerHour]

/-! Review-flag semantics (claim C3). -/

lemma reviewFlagInv_init (b : Bool) (s0 : ClockState) (hids : IdsUnique s0) :
    ReviewFlagInv b s0 s0 := by
  intro e he hsome hopen
  obtain ⟨e0, he0, hid, hco⟩ := hopen
  have heq : e0 = e := List.inj_on_of_nodup_map hids he0 he hid
  rw [heq] at hco
  rw [hco] at hsome
  cases hsome

lemma reviewFlagInv_map (b : Bool) (s0 st : ClockState)
    (f : TimeEntry → TimeEntry)
    (hf : ∀ e, f e = e ∨ (f e).needsReview = b)
    (h : ReviewFlagInv b s0 st) :
    ReviewFlagInv b s0 { st with entries := st.entries.map f } := by
  intro e he hsome hopen
  simp only [List.mem_map] at he
  obtain ⟨e1, he1, hfe⟩ := he
  rcases hf e1 with heq | hrev
  · rw [heq] at hfe
    subst hfe
    exact h e1 he1 hsome hopen
  · rw [hfe] at hrev
    exact hrev

lemma foldl_state_pred {α : Type} (P : ClockState → Prop)
    (step : AutoClockoutResult × ClockState → α → AutoClockoutResult × ClockState)
    (hstep : ∀ acc a, P acc.2 → P (step acc a).2) :
    ∀ (l : List α) (acc : AutoClockoutResult × ClockState),
      P acc.2 → P ((l.foldl step acc).2)
  | [], _, h => h
  | x :: xs, acc, h =>
    foldl_state_pred P step hstep xs (step acc x) (hstep acc x h)

lemma autoClockoutStep_review (autoTime nowTs : Int) (dryRun : Bool)
    (uf : Nat → Bool) (s0 : ClockState)
    (acc : AutoClockoutResult × ClockState) (entry : TimeEntry)
    (h : ReviewFlagInv true s0 acc.2) :
    ReviewFlagInv true s0 (autoClockoutStep autoTime nowTs dryRun uf acc entry).2 := by
  simp only [autoClockoutStep]
  split
  · exact h
  · split
    · exact h
    · refine reviewFlagInv_map true s0 acc.2 _ (fun e => ?_) h
      by_cases hc : (e.id == entry.id) = true
      · right; rw [if_pos hc]; rfl
      · left; rw [if_neg hc]

lemma selectiveStep_review (adminId : Nat) (nowTs : Int) (s0 : ClockState)
    (acc : AutoClockoutResult × ClockState) (item : Nat × Int)
    (h : ReviewFlagInv false s0 acc.2) :
    ReviewFlagInv false s0 (selectiveStep adminId nowTs acc item).2 := by
  simp only [selectiveStep]
  split
  · exact h
  next active hfind =>
    split
    · exact h
    · refine reviewFlagInv_map false s0 acc.2 _ (fun e => ?_) h
      by_cases hc : (e.id == active.id) = true
      · right; rw [if_pos hc]; rfl
      · left; rw [if_neg hc]

lemma correct_clears (s : ClockState) : CorrectClearsReview s := by
  intro entryId adminId nco notes mark nowTs ret s2 hok
  obtain ⟨te, hfind, hco, hs2, hcases⟩ :=
    correctEntry_ok_inv entryId adminId nco notes mark nowTs s ret s2 hok
  have hrev : ret.needsReview = false := by
    rcases hcases with ⟨-, -, hret⟩ | ⟨c, -, -, -, hret⟩ <;> subst hret <;> rfl
  refine ⟨hrev, ?_⟩
  subst hs2
  intro e he hid
  simp only [List.mem_map] at he
  obtain ⟨e1, he1, hfe⟩ := he
  by_cases hc : (e1.id == entryId) = true
  · rw [if_pos hc] at hfe
    rw [← hfe]
    exact hrev
  · rw [if_neg hc] at hfe
    subst hfe
    exact absurd (beq_iff_eq.mpr hid) hc

lemma batchMark_clears (s : ClockState) : BatchMarkClearsReview s := by
  intro entryIds adminId cot notes nowTs cnt s2 hok
  rcases batchCorrect_ok_inv "mark-correct" entryIds adminId cot notes nowTs
      s cnt s2 hok with ⟨-, hs2⟩ | ⟨hact, -⟩
  · subst hs2
    intro e he hid hsome
    simp only [List.mem_map] at he
    obtain ⟨e1, he1, hfe⟩ := he
    by_cases hc : batchMarkQuery entryIds e1 = true
    · rw [if_pos hc] at hfe
      rw [← hfe]
      rfl
    · rw [if_neg hc] at hfe
      subst hfe
      refine absurd ?_ hc
      unfold batchMarkQuery
      rw [Bool.and_eq_true]
      exact ⟨List.elem_eq_true_of_mem hid, hsome⟩
  · exact absurd hact (by decide)

lemma selective_clears (s : ClockState) (hids : IdsUnique s) :
    SelectiveClearsReview s := by
  intro items adminId nowTs
  exact foldl_state_pred (ReviewFlagInv false s) _
    (fun acc a h => selectiveStep_review adminId nowTs s acc a h) items _
    (reviewFlagInv_init false s hids)

lemma auto_sets (s : ClockState) (hids : IdsUnique s) : AutoSetsReview s := by
  intro autoTime nowTs uf
  exact foldl_state_pred (ReviewFlagInv true s) _
    (fun acc a h => autoClockoutStep_review autoTime nowTs false uf s acc a h) _ _
    (reviewFlagInv_init true s hids)

/-- C3: every successful CorrectEntry and every mark-correct BatchCorrect
clears `needsReview` on the affected entries; every entry closed by
RunSelectiveAutoClockout ends with `needsReview = false`; every entry
closed by a non-dry-run RunAutoClockout ends with `needsReview = true`. -/
theorem reviewFlag_semantics (s : ClockState) (hids : IdsUnique s) :
    CorrectClearsReview s ∧ BatchMarkClearsReview s ∧
    SelectiveClearsReview s ∧ AutoSetsReview s :=
  ⟨correct_clears s, batchMark_clears s, selective_clears s hids,
   auto_sets s hids⟩

/-- Witness for `reviewFlag_semantics` at a concrete two-entry state. -/
theorem reviewFlag_semantics_witness :
    IdsUnique (ClockState.mk [Employee.mk 1 true]
      [TimeEntry.mk 0 2 0 (some 10) none false none true none
         false none none none 10,
       TimeEntry.mk 1 3 0 none none false none false none
         false none none none 0] 5) ∧
    (CorrectClearsReview (ClockState.mk [Employee.mk 1 true]
      [TimeEntry.mk 0 2 0 (some 10) none false none true none
         false none none none 10,
       TimeEntry.mk 1 3 0 none none false none false none
         false none none none 0] 5) ∧
     BatchMarkClearsReview (ClockState.mk [Employee.mk 1 true]
      [TimeEntry.mk 0 2 0 (some 10) none false none true none
         false none none none 10,
       TimeEntry.mk 1 3 0 none none false none false none
         false none none none 0] 5) ∧
     SelectiveClearsReview (ClockState.mk [Employee.mk 1 true]
      [TimeEntry.mk 0 2 0 (some 10) none false none true none
         false none none none 10,
       TimeEntry.mk 1 3 0 none none false none false none
         false none none none 0] 5) ∧
     AutoSetsReview (ClockState.mk [Employee.mk 1 true]
      [TimeEntry.mk 0 2 0 (some 10) none false none true none
         false none none none 10,
       TimeEntry.mk 1 3 0 none none false none false none
         false none none none 0] 5)) :=
  ⟨by unfold IdsUnique; decide, reviewFlag_semantics _ (by unfold IdsUnique; decide)⟩

lemma find?_id_update (l : List TimeEntry) (eid : Nat) (te u : TimeEntry)
    (hfind : l.find? (fun e => e.id == eid) = some te) (hu : u.id = eid) :
    (l.map (fun e => if e.id == eid then u else e)).find?
      (fun e => e.id == eid) = some u := by
  induction l with
  | nil => cases hfind
  | cons x xs ih =>
    by_cases hc : (x.id == eid) = true
    · simp only [List.map_cons, if_pos hc]
      exact @List.find?_cons_of_pos _ (fun e => e.id == eid) u
        (xs.map (fun e => if e.id == eid then u else e)) (beq_iff_eq.mpr hu)
    · rw [@List.find?_cons_of_neg _ (fun e => e.id == eid) x xs hc] at hfind
      simp only [List.map_cons, if_neg hc]
      rw [@List.find?_cons_of_neg _ (fun e => e.id == eid) x
        (xs.map (fun e => if e.id == eid then u else e)) hc]
      exact ih hfind

/-- C4: on an auto-clockout entry with `clockOut = C1` and
`originalClockOut` unset, a first successful CorrectEntry with a new
clock-out stores `C1` into `originalClockOut`, and any later successful
CorrectEntry with another new clock-out leaves `originalClockOut = C1`. -/
theorem originalClockOut_preserved_once
    (entryId adminId1 adminId2 : Nat) (c1 : Int) (nco1 nco2 : Int)
    (n1 n2 : Option String) (m1 m2 : Bool) (t1 t2 : Int)
    (s s1 s2 : ClockState) (te e1 e2 : TimeEntry)
    (hfind : s.entries.find? (fun e => e.id == entryId) = some te)
    (hauto : te.isAutoClockOut = true)
    (hco : te.clockOut = some c1)
    (horig : te.originalClockOut = none)
    (hok1 : correctEntry entryId adminId1 (some nco1) n1 m1 t1 s = .ok (e1, s1))
    (hok2 : correctEntry entryId adminId2 (some nco2) n2 m2 t2 s1 = .ok (e2, s2)) :
    e1.originalClockOut = some c1 ∧ e2.originalClockOut = some c1 ∧
    ∀ e ∈ s2.entries, e.id = entryId → e.originalClockOut = some c1 := by
  obtain ⟨te1, hfind1, hco1, hs1, hcases1⟩ :=
    correctEntry_ok_inv entryId adminId1 (some nco1) n1 m1 t1 s e1 s1 hok1
  rw [hfind] at hfind1
  injection hfind1 with hte1
  subst hte1
  rcases hcases1 with ⟨-, hnone, -⟩ | ⟨c, hcc, -, -, hret1⟩
  · cases hnone
  · injection hcc with hcc
    subst hcc
    have he1orig : e1.originalClockOut = some c1 := by
      rw [hret1]
      show (if te.originalClockOut.isNone && te.isAutoClockOut
              then te.clockOut else te.originalClockOut) = some c1
      rw [horig, hauto, hco]
      rfl
    have he1id : e1.id = entryId := by
      rw [hret1]
      show te.id = entryId
      have hp := List.find?_some hfind
      exact beq_iff_eq.mp hp
    obtain ⟨te2, hfind2, hco2, hs2eq, hcases2⟩ :=
      correctEntry_ok_inv entryId adminId2 (some nco2) n2 m2 t2 s1 e2 s2 hok2
    have hfind1' : s1.entries.find? (fun e => e.id == entryId) = some e1 := by
      rw [hs1]
      exact find?_id_update s.entries entryId te e1 hfind he1id
    rw [hfind1'] at hfind2
    injection hfind2 with hte2
    subst hte2
    rcases hcases2 with ⟨-, hnone, -⟩ | ⟨c', hcc', -, -, hret2⟩
    · cases hnone
    · injection hcc' with hcc'
      subst hcc'
      have he2orig : e2.originalClockOut = some c1 := by
        rw [hret2]
        show (if e1.originalClockOut.isNone && e1.isAutoClockOut
                then e1.clockOut else e1.originalClockOut) = some c1
        rw [he1orig]
        rfl
      refine ⟨he1orig, he2orig, ?_⟩
      subst hs2eq
      intro e he hid
      simp only [List.mem_map] at he
      obtain ⟨e3, he3, hfe⟩ := he
      by_cases hc3 : (e3.id == entryId) = true
      · rw [if_pos hc3] at hfe
        rw [← hfe]
        exact he2orig
      · rw [if_neg hc3] at hfe
        subst hfe
        exact absurd (beq_iff_eq.mpr hid) hc3

lemma foldl_auto_success (autoTime nowTs : Int) (dryRun : Bool)
    (uf : Nat → Bool) :
    ∀ (l : List TimeEntry) (acc : AutoClockoutResult × ClockState),
      ((l.foldl (autoClockoutStep autoTime nowTs dryRun uf) acc).1).success
        = acc.1.success
  | [], _ => rfl
  | x :: xs, acc => by
    rw [List.foldl_cons, foldl_auto_success autoTime nowTs dryRun uf xs]
    simp only [autoClockoutStep]
    split
    · rfl
    · split <;> rfl

lemma foldl_selective_success (adminId : Nat) (nowTs : Int) :
    ∀ (l : List (Nat × Int)) (acc : AutoClockoutResult × ClockState),
      ((l.foldl (selectiveStep adminId nowTs) acc).1).success = acc.1.success
  | [], _ => rfl
  | x :: xs, acc => by
    rw [List.foldl_cons, foldl_selective_success adminId nowTs xs]
    simp only [selectiveStep]
    split
    · rfl
    · split <;> rfl

lemma auto_finalize_flags (r : AutoClockoutResult) (h : r.success = true) :
    ((if r.errors.isEmpty then r else { r with success := false }).success = false ↔
     (if r.errors.isEmpty then r else { r with success := false }).errors ≠ []) := by
  by_cases he : r.errors.isEmpty
  · rw [if_pos he]
    constructor
    · intro hcon
      rw [h] at hcon
      cases hcon
    · intro hcon
      exact absurd (List.isEmpty_iff.mp he) hcon
  · rw [if_neg he]
    constructor
    · intro _ hnil
      exact he (by rw [hnil]; rfl)
    · intro _
      rfl

lemma selective_finalize_flags (r : AutoClockoutResult) (h : r.success = true) :
    ((if !r.errors.isEmpty && r.clockedOutCount == 0
        then { r with success := false } else r).success = false ↔
     ((if !r.errors.isEmpty && r.clockedOutCount == 0
         then { r with success := false } else r).errors ≠ [] ∧
      (if !r.errors.isEmpty && r.clockedOutCount == 0
         then { r with success := false } else r).clockedOutCount = 0)) := by
  by_cases hc : (!r.errors.isEmpty && r.clockedOutCount == 0) = true
  · rw [if_pos hc]
    simp only [Bool.and_eq_true, Bool.not_eq_true'] at hc
    obtain ⟨hne, hcnt⟩ := hc
    constructor
    · intro _
      have hc0 : r.clockedOutCount = 0 := beq_iff_eq.mp hcnt
      refine ⟨?_, hc0⟩
      intro hnil
      rw [hnil] at hne
      cases hne
    · intro _
      rfl
  · rw [if_neg hc]
    constructor
    · intro hcon
      rw [h] at hcon
      cases hcon
    · intro ⟨hne, hcnt⟩
      exfalso
      apply hc
      rw [Bool.and_eq_true, Bool.not_eq_true']
      refine ⟨?_, beq_iff_eq.mpr hcnt⟩
      cases hnil : r.errors with
      | nil => exact absurd hnil hne
      | cons a l => rfl

/-- C8: RunAutoClockout reports `success = false` exactly when its error
list is non-empty, while RunSelectiveAutoClockout reports
`success = false` only when errors occurred and nothing was clocked out —
a partial success stays `success = true` with the errors listed. -/
theorem result_success_flags (autoTime nowTs : Int) (dryRun : Bool)
    (uf : Nat → Bool) (s : ClockState) (items : List (Nat × Int))
    (adminId : Nat) (nowTs2 : Int) (s2 : ClockState) :
    ((performAutoClockout autoTime nowTs dryRun uf s).1.success = false ↔
      (performAutoClockout autoTime nowTs dryRun uf s).1.errors ≠ []) ∧
    ((performSelectiveAutoClockout items adminId nowTs2 s2).1.success = false ↔
      ((performSelectiveAutoClockout items adminId nowTs2 s2).1.errors ≠ [] ∧
       (performSelectiveAutoClockout items adminId nowTs2 s2).1.clockedOutCount = 0)) := by
  constructor
  · exact auto_finalize_flags _
      (foldl_auto_success autoTime nowTs dryRun uf _ _)
  · exact selective_finalize_flags _
      (foldl_selective_success adminId nowTs2 _ _)

/-- Witness for `originalClockOut_preserved_once`: an auto-clockout entry
closed at 3600000 is corrected to 7200000, then again to 5400000;
`originalClockOut` is 3600000 after both corrections. -/
theorem originalClockOut_preserved_once_witness :
    (correctTimeUpdate 1 86400000 none 7200000
        (TimeEntry.mk 0 2 0 (some 3600000) (some 1) true none true none
          false none none none 3600000)).originalClockOut = some 3600000 ∧
    (correctTimeUpdate 1 172800000 none 5400000
        (correctTimeUpdate 1 86400000 none 7200000
          (TimeEntry.mk 0 2 0 (some 3600000) (some 1) true none true none
            false none none none 3600000))).originalClockOut = some 3600000 ∧
    ∀ e ∈ (ClockState.mk [Employee.mk 1 true]
        [correctTimeUpdate 1 172800000 none 5400000
          (correctTimeUpdate 1 86400000 none 7200000
            (TimeEntry.mk 0 2 0 (some 3600000) (some 1) true none true none
              false none none none 3600000))] 5).entries,
      e.id = 0 → e.originalClockOut = some 3600000 :=
  originalClockOut_preserved_once 0 1 1 3600000 7200000 5400000 none none
    false false 86400000 172800000
    (ClockState.mk [Employee.mk 1 true]
      [TimeEntry.mk 0 2 0 (some 3600000) (some 1) true none true none
        false none none none 3600000] 5)
    (ClockState.mk [Employee.mk 1 true]
      [correctTimeUpdate 1 86400000 none 7200000
        (TimeEntry.mk 0 2 0 (some 3600000) (some 1) true none true none
          false none none none 3600000)] 5)
    (ClockState.mk [Employee.mk 1 true]
      [correctTimeUpdate 1 172800000 none 5400000
        (correctTimeUpdate 1 86400000 none 7200000
          (TimeEntry.mk 0 2 0 (some 3600000) (some 1) true none true none
            false none none none 3600000))] 5)
    (TimeEntry.mk 0 2 0 (some 3600000) (some 1) true none true none
      false none none none 3600000)
    (correctTimeUpdate 1 86400000 none 7200000
      (TimeEntry.mk 0 2 0 (some 3600000) (some 1) true none true none
        false none none none 3600000))
    (correctTimeUpdate 1 172800000 none 5400000
      (correctTimeUpdate 1 86400000 none 7200000
        (TimeEntry.mk 0 2 0 (some 3600000) (some 1) true none true none
          false none none none 3600000)))
    rfl rfl rfl rfl rfl rfl

/-- C9: a successful CorrectEntry call without a notes argument overwrites
`adminNotes` with null on the returned and the stored entry — previously
stored notes are erased, not kept. -/
theorem adminNotes_erased_when_absent
    (entryId adminId : Nat) (nco : Option Int) (mark : Bool) (nowTs : Int)
    (s s2 : ClockState) (ret : TimeEntry)
    (hok : correctEntry entryId adminId nco none mark nowTs s = .ok (ret, s2)) :
    ret.adminNotes = none ∧
    ∀ e ∈ s2.entries, e.id = entryId → e.adminNotes = none := by
  obtain ⟨te, hfind, hco, hs2, hcases⟩ :=
    correctEntry_ok_inv entryId adminId nco none mark nowTs s ret s2 hok
  have hn : ret.adminNotes = none := by
    rcases hcases with ⟨-, -, hret⟩ | ⟨c, -, -, -, hret⟩ <;> subst hret <;> rfl
  refine ⟨hn, ?_⟩
  subst hs2
  intro e he hid
  simp only [List.mem_map] at he
  obtain ⟨e1, he1, hfe⟩ := he
  by_cases hc : (e1.id == entryId) = true
  · rw [if_pos hc] at hfe
    rw [← hfe]
    exact hn
  · rw [if_neg hc] at hfe
    subst hfe
    exact absurd (beq_iff_eq.mpr hid) hc

/-- Witness for `adminNotes_erased_when_absent`: an entry holding admin
notes is marked correct without notes; the stored notes become null. -/
theorem adminNotes_erased_when_absent_witness :
    (markCorrectUpdate 1 100 none
      (TimeEntry.mk 0 2 0 (some 3600000) (some 1) true none true none
        false none none (some "prior note") 3600000)).adminNotes = none ∧
    ∀ e ∈ (ClockState.mk [Employee.mk 1 true]
        [markCorrectUpdate 1 100 none
          (TimeEntry.mk 0 2 0 (some 3600000) (some 1) true none true none
            false none none (some "prior note") 3600000)] 5).entries,
      e.id = 0 → e.adminNotes = none :=
  adminNotes_erased_when_absent 0 1 none true 100
    (ClockState.mk [Employee.mk 1 true]
      [TimeEntry.mk 0 2 0 (some 3600000) (some 1) true none true none
        false none none (some "prior note") 3600000] 5)
    (ClockState.mk [Employee.mk 1 true]
      [markCorrectUpdate 1 100 none
        (TimeEntry.mk 0 2 0 (some 3600000) (some 1) true none true none
          false none none (some "prior note") 3600000)] 5)
    (markCorrectUpdate 1 100 none
      (TimeEntry.mk 0 2 0 (some 3600000) (some 1) true none true none
        false none none (some "prior note") 3600000))
    rfl

/-- C10: RunSelectiveAutoClockout validates an item's time only against
`clockIn`; any strictly later time — including one arbitrarily far in the
future of `now` — succeeds and closes the entry at that time. -/
theorem selective_accepts_future_clockOut
    (eid adminId : Nat) (t nowTs : Int) (s : ClockState) (a : TimeEntry)
    (hfind : s.entries.find? (isActiveFor eid) = some a)
    (ht : a.clockIn < t) :
    (performSelectiveAutoClockout [(eid, t)] adminId nowTs s).1.clockedOutCount = 1 ∧
    (performSelectiveAutoClockout [(eid, t)] adminId nowTs s).1.errors = [] ∧
    (performSelectiveAutoClockout [(eid, t)] adminId nowTs s).1.success = true ∧
    ∀ e ∈ (performSelectiveAutoClockout [(eid, t)] adminId nowTs s).2.entries,
      e.id = a.id → e.clockOut = some t := by
  unfold performSelectiveAutoClockout
  simp only [List.foldl_cons, List.foldl_nil]
  simp only [selectiveStep, hfind]
  rw [if_neg (not_le.mpr ht)]
  refine ⟨rfl, rfl, rfl, ?_⟩
  intro e he hid
  simp only [List.mem_map] at he
  obtain ⟨e1, he1, hfe⟩ := he
  by_cases hc : (e1.id == a.id) = true
  · rw [if_pos hc] at hfe
    rw [← hfe]
    rfl
  · rw [if_neg hc] at hfe
    subst hfe
    exact absurd (beq_iff_eq.mpr hid) hc

/-- Witness for `selective_accepts_future_clockOut`: with `now = 2000`,
the chosen clock-out time 32503680000000 (about year 3000) is accepted. -/
theorem selective_accepts_future_clockOut_witness :
    (performSelectiveAutoClockout [(4, 32503680000000)] 1 2000
      (ClockState.mk [] [TimeEntry.mk 7 4 1000 none none false none false
        none false none none none 1000] 9)).1.clockedOutCount = 1 ∧
    (performSelectiveAutoClockout [(4, 32503680000000)] 1 2000
      (ClockState.mk [] [TimeEntry.mk 7 4 1000 none none false none false
        none false none none none 1000] 9)).1.errors = [] ∧
    (performSelectiveAutoClockout [(4, 32503680000000)] 1 2000
      (ClockState.mk [] [TimeEntry.mk 7 4 1000 none none false none false
        none false none none none 1000] 9)).1.success = true ∧
    ∀ e ∈ (performSelectiveAutoClockout [(4, 32503680000000)] 1 2000
      (ClockState.mk [] [TimeEntry.mk 7 4 1000 none none false none false
        none false none none none 1000] 9)).2.entries,
      e.id = (TimeEntry.mk 7 4 1000 none none false none false
        none false none none none 1000).id →
        e.clockOut = some 32503680000000 :=
  selective_accepts_future_clockOut 4 1 32503680000000 2000
    (ClockState.mk [] [TimeEntry.mk 7 4 1000 none none false none false
      none false none none none 1000] 9)
    (TimeEntry.mk 7 4 1000 none none false none false none false none
      none none 1000)
    rfl (by decide)

/-! Calendar arithmetic for the reporting engine. -/

lemma daysInMonth_pos (y m : Nat) : 1 ≤ daysInMonth y m := by
  unfold daysInMonth
  split
  · split <;> norm_num
  · split <;> norm_num

lemma daysInMonth_twelve (y : Nat) : daysInMonth y 12 = 31 := by
  unfold daysInMonth
  norm_num

lemma monthStartOffset_succ (y m : Nat) (hm : 1 ≤ m) :
    monthStartOffset y (m + 1) = monthStartOffset y m + daysInMonth y m := by
  match m, hm with
  | k + 1, _ => rfl

lemma monthStartOffset_mono (y : Nat) {a b : Nat} (ha : 1 ≤ a) (hab : a ≤ b) :
    monthStartOffset y a ≤ monthStartOffset y b := by
  induction b with
  | zero => omega
  | succ n ih =>
    by_cases h : a = n + 1
    · subst h; exact le_refl _
    · have han : a ≤ n := by omega
      have h1n : 1 ≤ n := by omega
      calc monthStartOffset y a ≤ monthStartOffset y n := ih han
        _ ≤ monthStartOffset y (n + 1) := by
            rw [monthStartOffset_succ y n h1n]
            exact Nat.le_add_right _ _

lemma monthStartOffset_13 (y : Nat) : monthStartOffset y 13 = daysInYear y := by
  show 0 + daysInMonth y 1 + daysInMonth y 2 + daysInMonth y 3 +
      daysInMonth y 4 + daysInMonth y 5 + daysInMonth y 6 + daysInMonth y 7 +
      daysInMonth y 8 + daysInMonth y 9 + daysInMonth y 10 + daysInMonth y 11 +
      daysInMonth y 12 = daysInYear y
  unfold daysInYear
  cases h : isLeapYear y <;> simp [daysInMonth, h]

lemma yearStartDay_succ (y : Nat) (h : 1970 ≤ y) :
    yearStartDay (y + 1) = yearStartDay y + daysInYear y := by
  unfold yearStartDay
  have h1 : y + 1 - 1970 = (y - 1970) + 1 := by omega
  rw [h1]
  show yearStartDayAux (y - 1970) + daysInYear (1970 + (y - 1970)) = _
  have h2 : 1970 + (y - 1970) = y := by omega
  rw [h2]

lemma yearStartDay_mono {a b : Nat} (ha : 1970 ≤ a) (hab : a ≤ b) :
    yearStartDay a ≤ yearStartDay b := by
  induction b with
  | zero => omega
  | succ n ih =>
    by_cases h : a = n + 1
    · subst h; exact le_refl _
    · have han : a ≤ n := by omega
      have h1n : 1970 ≤ n := by omega
      calc yearStartDay a ≤ yearStartDay n := ih han
        _ ≤ yearStartDay (n + 1) := by
            rw [yearStartDay_succ n h1n]
            exact Nat.le_add_right _ _

lemma dayNumber_bounds (dt : DateTime) (h : ValidDT dt) :
    yearStartDay dt.year ≤ dayNumberOfDate dt.year dt.month dt.day ∧
    dayNumberOfDate dt.year dt.month dt.day
      < yearStartDay dt.year + daysInYear dt.year := by
  obtain ⟨-, hm1, hm12, hd1, hdim, -⟩ := h
  constructor
  · unfold dayNumberOfDate
    omega
  · have h1 : monthStartOffset dt.year dt.month + daysInMonth dt.year dt.month
        = monthStartOffset dt.year (dt.month + 1) :=
      (monthStartOffset_succ dt.year dt.month hm1).symm
    have h2 : monthStartOffset dt.year (dt.month + 1)
        ≤ monthStartOffset dt.year 13 :=
      monthStartOffset_mono dt.year (by omega) (by omega)
    have h3 := monthStartOffset_13 dt.year
    unfold dayNumberOfDate
    omega

lemma day_le_of_ts {a b r : Int} (_hr : 0 ≤ r) (hrP : r < msPerDay)
    (h : a * msPerDay ≤ b * msPerDay + r) : a ≤ b := by
  have hexp : (b + 1) * msPerDay = b * msPerDay + msPerDay := by ring
  have h2 : a * msPerDay < (b + 1) * msPerDay := by
    rw [hexp]
    linarith
  have h3 : a < b + 1 := (mul_lt_mul_right msPerDay_pos).mp h2
  omega

lemma daysInYear_pos (y : Nat) : 1 ≤ daysInYear y := by
  unfold daysInYear
  split <;> norm_num

lemma ts_window_year (dt : DateTime) (h : ValidDT dt) (y : Nat)
    (hy : 1970 ≤ y)
    (h1 : tsOf (DateTime.mk y 1 1 0) ≤ tsOf dt)
    (h2 : tsOf dt ≤ tsOf (DateTime.mk y 12 31 0) + (msPerDay - 1)) :
    dt.year = y := by
  obtain ⟨hy', hm1, hm12, hd1, hdim, hms⟩ := h
  have hub := dayNumber_bounds dt ⟨hy', hm1, hm12, hd1, hdim, hms⟩
  have hstart : dayNumberOfDate y 1 1 = yearStartDay y := by
    have h0 : monthStartOffset y 1 = 0 := rfl
    unfold dayNumberOfDate
    omega
  have hend : dayNumberOfDate y 12 31 ≤ yearStartDay y + daysInYear y - 1 := by
    have e13 := monthStartOffset_13 y
    have e12 : monthStartOffset y 13
        = monthStartOffset y 12 + daysInMonth y 12 :=
      monthStartOffset_succ y 12 (by norm_num)
    have d12 := daysInMonth_twelve y
    unfold dayNumberOfDate
    omega
  simp only [tsOf] at h1 h2
  simp only [msPerDay] at h1 h2 hms
  rcases Nat.lt_trichotomy dt.year y with hlt | heq | hgt
  · exfalso
    have hmono : yearStartDay (dt.year + 1) ≤ yearStartDay y :=
      yearStartDay_mono (by omega) (by omega)
    have hs := yearStartDay_succ dt.year hy'
    omega
  · exact heq
  · exfalso
    have hmono : yearStartDay (y + 1) ≤ yearStartDay dt.year :=
      yearStartDay_mono (by omega) (by omega)
    have hs := yearStartDay_succ y hy
    have hdy := daysInYear_pos y
    omega

lemma ts_window_month (dt : DateTime) (h : ValidDT dt) (y m : Nat)
    (hy : 1970 ≤ y) (hm1 : 1 ≤ m) (hm12 : m ≤ 12)
    (h1 : tsOf (DateTime.mk y m 1 0) ≤ tsOf dt)
    (h2 : tsOf dt ≤ tsOf (DateTime.mk y m (daysInMonth y m) 0) + (msPerDay - 1)) :
    dt.year = y ∧ dt.month = m := by
  have hyear : dt.year = y := by
    apply ts_window_year dt h y hy
    · have hle : tsOf (DateTime.mk y 1 1 0) ≤ tsOf (DateTime.mk y m 1 0) := by
        unfold tsOf dayNumberOfDate
        have h0 : monthStartOffset y 1 = 0 := rfl
        have hmono : monthStartOffset y 1 ≤ monthStartOffset y m :=
          monthStartOffset_mono y (by norm_num) hm1
        simp only [msPerDay]
        omega
      linarith
    · have hle : tsOf (DateTime.mk y m (daysInMonth y m) 0)
          ≤ tsOf (DateTime.mk y 12 31 0) := by
        simp only [tsOf, dayNumberOfDate]
        have e1 : monthStartOffset y m + daysInMonth y m
            = monthStartOffset y (m + 1) := (monthStartOffset_succ y m hm1).symm
        have e2 : monthStartOffset y (m + 1) ≤ monthStartOffset y 13 :=
          monthStartOffset_mono y (by omega) (by omega)
        have e3 : monthStartOffset y 13
            = monthStartOffset y 12 + daysInMonth y 12 :=
          monthStartOffset_succ y 12 (by norm_num)
        have d12 := daysInMonth_twelve y
        have hdm := daysInMonth_pos y m
        simp only [msPerDay]
        omega
      linarith
  refine ⟨hyear, ?_⟩
  obtain ⟨hy', hmm1, hmm12, hd1, hdim, hms⟩ := h
  rw [hyear] at hdim
  simp only [tsOf, dayNumberOfDate] at h1 h2
  rw [hyear] at h1 h2
  simp only [msPerDay] at h1 h2 hms
  rcases Nat.lt_trichotomy dt.month m with hlt | heq | hgt
  · exfalso
    have e1 : monthStartOffset y dt.month + daysInMonth y dt.month
        = monthStartOffset y (dt.month + 1) :=
      (monthStartOffset_succ y dt.month hmm1).symm
    have e2 : monthStartOffset y (dt.month + 1) ≤ monthStartOffset y m :=
      monthStartOffset_mono y (by omega) (by omega)
    have hdm := daysInMonth_pos y m
    have hdm2 := daysInMonth_pos y dt.month
    omega
  · exact heq
  · exfalso
    have e1 : monthStartOffset y m + daysInMonth y m
        = monthStartOffset y (m + 1) := (monthStartOffset_succ y m hm1).symm
    have e2 : monthStartOffset y (m + 1) ≤ monthStartOffset y dt.month :=
      monthStartOffset_mono y (by omega) (by omega)
    have hdm := daysInMonth_pos y m
    have hdm2 := daysInMonth_pos y dt.month
    omega

lemma fdiv_mul_add_of_lt (a : Int) {r P : Int} (hr : 0 ≤ r) (hrP : r < P) :
    (a * P + r).fdiv P = a := by
  have hP : 0 < P := lt_of_le_of_lt hr hrP
  rw [Int.fdiv_eq_ediv _ hP.le, add_comm,
      Int.add_mul_ediv_right _ _ (ne_of_gt hP),
      Int.ediv_eq_zero_of_lt hr hrP]
  omega

lemma dayKey_tsOf (dt : DateTime) (h : ValidDT dt) :
    dayKey (tsOf dt) = (dayNumberOfDate dt.year dt.month dt.day : Int) := by
  obtain ⟨-, -, -, -, -, hms⟩ := h
  unfold dayKey tsOf
  exact fdiv_mul_add_of_lt _ (Int.ofNat_nonneg _) hms

lemma dayKey_midnight (y m d : Nat) :
    dayKey (tsOf (DateTime.mk y m d 0)) = (dayNumberOfDate y m d : Int) := by
  unfold dayKey tsOf
  exact fdiv_mul_add_of_lt _ (by norm_num) (by norm_num [msPerDay])

lemma getWeekNumber_valid (dt : DateTime) (h : ValidDT dt) :
    getWeekNumber (tsOf dt) (tsOf (DateTime.mk dt.year dt.month 1 0))
      = (((dt.day - 1) / 7 : Nat) : Int) + 1 := by
  obtain ⟨-, -, -, hd1, -, hms⟩ := h
  unfold getWeekNumber
  have hdiff : tsOf dt - tsOf (DateTime.mk dt.year dt.month 1 0)
      = ((dt.day - 1 : Nat) : Int) * msPerDay + (dt.msOfDay : Int) := by
    simp only [tsOf, dayNumberOfDate, msPerDay]
    omega
  rw [hdiff, fdiv_mul_add_of_lt _ (Int.ofNat_nonneg _) hms,
      Int.fdiv_eq_ediv _ (by norm_num : (0:Int) ≤ 7)]
  omega

/-- C6/C7: every sum splits along a boolean filter. -/
lemma sum_map_filter_split {α : Type} (p : α → Bool) (f : α → ℚ) :
    ∀ l : List α,
      ((l.filter p).map f).sum + ((l.filter (fun a => !p a)).map f).sum
        = (l.map f).sum
  | [] => by simp
  | x :: xs => by
    have ih := sum_map_filter_split p f xs
    by_cases hx : p x = true
    · simp [List.filter_cons, hx]
      linarith
    · have hx2 : p x = false := Bool.not_eq_true _ ▸ hx
      simp [List.filter_cons, hx2]
      linarith

/-- Summing bucket-filtered sums over a duplicate-free covering key list
recovers the total sum. -/
lemma sum_over_keys {α κ : Type} [BEq κ] [LawfulBEq κ] (key : α → κ) (f : α → ℚ) :
    ∀ (keys : List κ) (l : List α), keys.Nodup → (∀ a ∈ l, key a ∈ keys) →
      (keys.map (fun k => ((l.filter (fun a => key a == k)).map f).sum)).sum
        = (l.map f).sum
  | [], l, _, hcov => by
    cases l with
    | nil => simp
    | cons a l2 => exact absurd (hcov a (List.mem_cons_self a l2)) (List.not_mem_nil _)
  | k :: ks, l, hnd, hcov => by
    rw [List.nodup_cons] at hnd
    obtain ⟨hk, hks⟩ := hnd
    rw [List.map_cons, List.sum_cons]
    have hrest : ∀ k2 ∈ ks,
        l.filter (fun a => key a == k2)
          = (l.filter (fun a => !(key a == k))).filter (fun a => key a == k2) := by
      intro k2 hk2
      rw [List.filter_filter]
      apply List.filter_congr
      intro a _
      by_cases h : (key a == k2) = true
      · have hne : (key a == k) = false := by
          have he := eq_of_beq h
          refine beq_eq_false_iff_ne.mpr ?_
          intro hh
          rw [← hh, he] at hk
          exact hk hk2
        simp [h, hne]
      · have h2 : (key a == k2) = false := Bool.not_eq_true _ ▸ h
        simp [h2]
    have htail : (ks.map (fun k2 =>
          ((l.filter (fun a => key a == k2)).map f).sum)).sum
        = (ks.map (fun k2 =>
          (((l.filter (fun a => !(key a == k))).filter
              (fun a => key a == k2)).map f).sum)).sum := by
      apply congrArg List.sum
      apply List.map_congr_left
      intro k2 hk2
      exact congrArg (fun t => (t.map f).sum) (hrest k2 hk2)
    rw [htail]
    rw [sum_over_keys key f ks (l.filter (fun a => !(key a == k))) hks ?_]
    · exact sum_map_filter_split (fun a => key a == k) f l
    · intro a ha
      rw [List.mem_filter] at ha
      obtain ⟨hal, hane⟩ := ha
      have hmem := hcov a hal
      rw [List.mem_cons] at hmem
      rcases hmem with h1 | h2
      · exfalso
        rw [h1] at hane
        simp at hane
      · exact h2

lemma windowEntries_mem (emp y : Nat) (monthQ : Option Nat)
    (entries : List REntry) (e : REntry)
    (he : e ∈ windowEntries emp y monthQ entries) :
    e ∈ entries ∧ e.employeeId = emp ∧ e.clockOut.isSome = true ∧
    e.hoursWorked.isSome = true ∧
    (reportWindow y monthQ).1 ≤ tsOf e.clockIn ∧
    tsOf e.clockIn ≤ (reportWindow y monthQ).2 := by
  unfold windowEntries at he
  rw [List.mem_filter] at he
  obtain ⟨hmem, hpred⟩ := he
  simp only [Bool.and_eq_true, decide_eq_true_eq] at hpred
  exact ⟨hmem, beq_iff_eq.mp hpred.1.1.1.1, hpred.1.1.1.2, hpred.1.1.2,
    hpred.1.2, hpred.2⟩

lemma windowEntries_calendar (emp y : Nat) (monthQ : Option Nat)
    (entries : List REntry) (hy : 1970 ≤ y)
    (hmq : ∀ m, monthQ = some m → 1 ≤ m ∧ m ≤ 12)
    (hv : ∀ e ∈ entries, ValidDT e.clockIn) :
    ∀ e ∈ windowEntries emp y monthQ entries,
      e.clockIn.year = y ∧ ∀ m, monthQ = some m → e.clockIn.month = m := by
  intro e he
  obtain ⟨hmem, -, -, -, hlo, hhi⟩ := windowEntries_mem emp y monthQ entries e he
  have hval := hv e hmem
  cases hq : monthQ with
  | none =>
    rw [hq] at hlo hhi
    simp only [reportWindow] at hlo hhi
    refine ⟨ts_window_year e.clockIn hval y hy hlo ?_, ?_⟩
    · omega
    · intro m hm
      cases hm
  | some m =>
    obtain ⟨hm1, hm12⟩ := hmq m hq
    rw [hq] at hlo hhi
    simp only [reportWindow] at hlo hhi
    have hw := ts_window_month e.clockIn hval y m hy hm1 hm12 hlo (by omega)
    refine ⟨hw.1, ?_⟩
    intro m2 hm2
    injection hm2 with hmm
    rw [← hmm]
    exact hw.2

lemma sum_day_buckets (wEs : List REntry) (wStart : Int) (cnt : Nat)
    (hcov : ∀ e ∈ wEs, ∃ i : Nat, i < cnt ∧
        dayKey (tsOf e.clockIn) = wStart + i) :
    (((List.range cnt).map (fun i : Nat => buildDay wEs (wStart + i))).map
        (fun d => d.hours)).sum = (wEs.map hwOf).sum := by
  rw [List.map_map]
  have hstep : (List.range cnt).map
      ((fun d => d.hours) ∘ fun i : Nat => buildDay wEs (wStart + (i : Int)))
      = ((List.range cnt).map (fun i : Nat => wStart + (i : Int))).map
          (fun k => ((wEs.filter
            (fun e => dayKey (tsOf e.clockIn) == k)).map hwOf).sum) := by
    rw [List.map_map]
    rfl
  rw [hstep]
  apply sum_over_keys (fun e => dayKey (tsOf e.clockIn)) hwOf
  · refine List.Nodup.map ?_ (List.nodup_range cnt)
    intro i j h
    simp only at h
    omega
  · intro a ha
    obtain ⟨i, hi, he⟩ := hcov a ha
    rw [List.mem_map]
    exact ⟨i, List.mem_range.mpr hi, he.symm⟩

lemma buildWeek_total (y m : Nat) (mEs : List REntry) (w : Int)
    (hprops : ∀ e ∈ mEs, ValidDT e.clockIn ∧ e.clockIn.year = y ∧
      e.clockIn.month = m) :
    (buildWeek y m mEs w).totalHours
      = ((mEs.filter (fun e =>
          getWeekNumber (tsOf e.clockIn) (tsOf (DateTime.mk y m 1 0)) == w)).map
            hwOf).sum := by
  simp only [buildWeek]
  rw [dayKey_midnight y m 1, dayKey_midnight y m (daysInMonth y m)]
  apply sum_day_buckets
  intro e he
  rw [List.mem_filter] at he
  obtain ⟨hmem, hweek⟩ := he
  obtain ⟨hval, hyear, hmonth⟩ := hprops e hmem
  have hwk := getWeekNumber_valid e.clockIn hval
  rw [hyear, hmonth] at hwk
  have hw : w = (((e.clockIn.day - 1) / 7 : Nat) : Int) + 1 :=
    (beq_iff_eq.mp hweek).symm.trans hwk
  have hdk := dayKey_tsOf e.clockIn hval
  rw [hyear, hmonth] at hdk
  obtain ⟨-, -, -, hd1, hdim, -⟩ := hval
  rw [hyear, hmonth] at hdim
  have h1 : dayNumberOfDate y m 1
      = yearStartDay y + monthStartOffset y m + (1 - 1) := rfl
  have h2 : dayNumberOfDate y m e.clockIn.day
      = yearStartDay y + monthStartOffset y m + (e.clockIn.day - 1) := rfl
  have h3 : dayNumberOfDate y m (daysInMonth y m)
      = yearStartDay y + monthStartOffset y m + (daysInMonth y m - 1) := rfl
  refine ⟨(e.clockIn.day - 1) % 7, ?_, ?_⟩
  · omega
  · rw [hdk]
    omega

lemma sum_week_buckets (y m : Nat) (mEs : List REntry) (Wn : Nat)
    (hprops : ∀ e ∈ mEs, ValidDT e.clockIn ∧ e.clockIn.year = y ∧
      e.clockIn.month = m)
    (hcov : ∀ e ∈ mEs, ∃ i : Nat, i < Wn ∧
        getWeekNumber (tsOf e.clockIn) (tsOf (DateTime.mk y m 1 0))
          = (i : Int) + 1) :
    (((List.range Wn).map (fun i : Nat => buildWeek y m mEs ((i : Int) + 1))).map
        (fun wk => wk.totalHours)).sum = (mEs.map hwOf).sum := by
  rw [List.map_map]
  have hpt : (List.range Wn).map
        ((fun wk => wk.totalHours) ∘ fun i : Nat => buildWeek y m mEs ((i:Int)+1))
      = ((List.range Wn).map (fun i : Nat => ((i:Int)+1))).map
          (fun k => ((mEs.filter (fun e =>
            getWeekNumber (tsOf e.clockIn) (tsOf (DateTime.mk y m 1 0)) == k)).map
              hwOf).sum) := by
    rw [List.map_map]
    apply List.map_congr_left
    intro i _
    exact buildWeek_total y m mEs ((i:Int)+1) hprops
  rw [hpt]
  apply sum_over_keys
    (fun e => getWeekNumber (tsOf e.clockIn) (tsOf (DateTime.mk y m 1 0))) hwOf
  · refine List.Nodup.map ?_ (List.nodup_range Wn)
    intro i j h
    simp only at h
    omega
  · intro a ha
    obtain ⟨i, hi, he⟩ := hcov a ha
    rw [List.mem_map]
    exact ⟨i, List.mem_range.mpr hi, he.symm⟩

lemma buildMonth_total (y m : Nat) (es : List REntry)
    (hy : 1970 ≤ y) (hm1 : 1 ≤ m) (hm12 : m ≤ 12)
    (hprops : ∀ e ∈ es, ValidDT e.clockIn ∧ e.clockIn.year = y) :
    (buildMonth y es m).totalHours
      = ((es.filter (fun e => e.clockIn.month == m)).map hwOf).sum := by
  have hmprops : ∀ e ∈ es.filter (fun e => e.clockIn.month == m),
      ValidDT e.clockIn ∧ e.clockIn.year = y ∧ e.clockIn.month = m := by
    intro e he
    rw [List.mem_filter] at he
    obtain ⟨hmem, hmm⟩ := he
    obtain ⟨hv2, hyy⟩ := hprops e hmem
    exact ⟨hv2, hyy, beq_iff_eq.mp hmm⟩
  have hWn : getWeekNumber (tsOf (DateTime.mk y m (daysInMonth y m) 0))
      (tsOf (DateTime.mk y m 1 0))
      = (((daysInMonth y m - 1) / 7 : Nat) : Int) + 1 :=
    getWeekNumber_valid (DateTime.mk y m (daysInMonth y m) 0)
      ⟨hy, hm1, hm12, daysInMonth_pos y m, le_refl _, by norm_num [msPerDay]⟩
  simp only [buildMonth]
  apply sum_week_buckets y m _ _ hmprops
  intro e he
  obtain ⟨hval, hyear, hmonth⟩ := hmprops e he
  have hwk := getWeekNumber_valid e.clockIn hval
  rw [hyear, hmonth] at hwk
  obtain ⟨-, -, -, hd1, hdim, -⟩ := hval
  rw [hyear, hmonth] at hdim
  have hdiv : (e.clockIn.day - 1) / 7 ≤ (daysInMonth y m - 1) / 7 :=
    Nat.div_le_div_right (by omega)
  refine ⟨(e.clockIn.day - 1) / 7, ?_, hwk⟩
  rw [hWn]
  omega

lemma buildDay_nonneg (wEs : List REntry) (dn : Int)
    (hnn : ∀ e ∈ wEs, 0 ≤ hwOf e) : 0 ≤ (buildDay wEs dn).hours := by
  apply List.sum_nonneg
  intro q hq
  rw [List.mem_map] at hq
  obtain ⟨e, he, hq⟩ := hq
  rw [List.mem_filter] at he
  rw [← hq]
  exact hnn e he.1

lemma buildWeek_nonneg (y m : Nat) (mEs : List REntry) (w : Int)
    (hnn : ∀ e ∈ mEs, 0 ≤ hwOf e) : 0 ≤ (buildWeek y m mEs w).totalHours := by
  simp only [buildWeek]
  apply List.sum_nonneg
  intro q hq
  rw [List.mem_map] at hq
  obtain ⟨d, hd, hq⟩ := hq
  rw [List.mem_map] at hd
  obtain ⟨i, -, hd⟩ := hd
  rw [← hq, ← hd]
  apply buildDay_nonneg
  intro e he
  rw [List.mem_filter] at he
  exact hnn e he.1

lemma buildMonth_nonneg (y : Nat) (es : List REntry) (m : Nat)
    (hnn : ∀ e ∈ es, 0 ≤ hwOf e) : 0 ≤ (buildMonth y es m).totalHours := by
  simp only [buildMonth]
  apply List.sum_nonneg
  intro q hq
  rw [List.mem_map] at hq
  obtain ⟨wk, hwk, hq⟩ := hq
  rw [List.mem_map] at hwk
  obtain ⟨i, -, hwk⟩ := hwk
  rw [← hq, ← hwk]
  apply buildWeek_nonneg
  intro e he
  rw [List.mem_filter] at he
  exact hnn e he.1

lemma processed_total (emp y : Nat) (monthQ : Option Nat) (entries : List REntry)
    (hy : 1970 ≤ y)
    (hmq : ∀ m, monthQ = some m → 1 ≤ m ∧ m ≤ 12)
    (hv : ∀ e ∈ entries, ValidDT e.clockIn) :
    ((monthsToProcess monthQ).map (fun mm =>
        (buildMonth y (windowEntries emp y monthQ entries) mm).totalHours)).sum
      = ((windowEntries emp y monthQ entries).map hwOf).sum := by
  have hprops : ∀ e ∈ windowEntries emp y monthQ entries,
      ValidDT e.clockIn ∧ e.clockIn.year = y := by
    intro e he
    have h1 := (windowEntries_mem emp y monthQ entries e he).1
    exact ⟨hv e h1, (windowEntries_calendar emp y monthQ entries hy hmq hv e he).1⟩
  cases hq : monthQ with
  | some m =>
    rw [hq] at hprops
    obtain ⟨hm1, hm12⟩ := hmq m hq
    simp only [monthsToProcess, List.map_cons, List.map_nil, List.sum_cons,
      List.sum_nil, add_zero]
    rw [buildMonth_total y m _ hy hm1 hm12 hprops]
    have hfe : (windowEntries emp y (some m) entries).filter
        (fun e => e.clockIn.month == m) = windowEntries emp y (some m) entries := by
      apply List.filter_eq_self.mpr
      intro e he
      exact beq_iff_eq.mpr
        ((windowEntries_calendar emp y (some m) entries hy
          (fun m2 h2 => hmq m2 (hq.trans h2)) hv e he).2 m rfl)
    rw [hfe]
  | none =>
    rw [hq] at hprops
    simp only [monthsToProcess]
    have hpt : (List.range' 1 12).map (fun mm =>
        (buildMonth y (windowEntries emp y none entries) mm).totalHours)
        = (List.range' 1 12).map (fun mm =>
          (((windowEntries emp y none entries).filter
            (fun e => e.clockIn.month == mm)).map hwOf).sum) := by
      apply List.map_congr_left
      intro mm hmm
      rw [List.mem_range'_1] at hmm
      exact buildMonth_total y mm _ hy (by omega) (by omega) hprops
    rw [hpt]
    apply sum_over_keys (fun e => e.clockIn.month) hwOf
    · decide
    · intro e he
      obtain ⟨hval, -⟩ := hprops e he
      obtain ⟨-, hm1, hm12, -, -, -⟩ := hval
      rw [List.mem_range'_1]
      omega

lemma included_months_total (monthQ : Option Nat) (allMonths : List RMonth)
    (hnnM : ∀ M ∈ allMonths, 0 ≤ M.totalHours) :
    ((allMonths.filter
        (fun M => decide (0 < M.totalHours) || monthQ.isSome)).map
          (fun M => M.totalHours)).sum
      = (allMonths.map (fun M => M.totalHours)).sum := by
  cases monthQ with
  | some m =>
    simp only [Option.isSome_some, Bool.or_true, List.filter_true]
  | none =>
    simp only [Option.isSome_none, Bool.or_false]
    rw [← sum_map_filter_split (fun M => decide (0 < M.totalHours))
      (fun M => M.totalHours) allMonths]
    have hz : ((allMonths.filter
        (fun M => !decide (0 < M.totalHours))).map
          (fun M => M.totalHours)).sum = 0 := by
      apply List.sum_eq_zero
      intro q hq
      rw [List.mem_map] at hq
      obtain ⟨M, hM, hq⟩ := hq
      rw [List.mem_filter] at hM
      obtain ⟨hMmem, hMp⟩ := hM
      simp only [Bool.not_eq_true', decide_eq_false_iff_not, not_lt] at hMp
      rw [← hq]
      exact le_antisymm hMp (hnnM M hMmem)
    rw [hz, add_zero]

lemma windowEntries_sum_eq (emp y : Nat) (monthQ : Option Nat)
    (entries : List REntry) :
    ((windowEntries emp y monthQ entries).map hwOf).sum
      = ((entries.filter (closedInWindow emp y monthQ)).map hwOf).sum := by
  have hsplit := sum_map_filter_split (fun e => e.hoursWorked.isSome)
      hwOf (entries.filter (closedInWindow emp y monthQ))
  have hA : (entries.filter (closedInWindow emp y monthQ)).filter
      (fun e => e.hoursWorked.isSome) = windowEntries emp y monthQ entries := by
    rw [List.filter_filter]
    unfold windowEntries
    apply List.filter_congr
    intro e he
    unfold closedInWindow
    cases h1 : (e.employeeId == emp) <;>
      cases h2 : e.clockOut.isSome <;>
        cases h3 : e.hoursWorked.isSome <;>
          cases h4 : decide ((reportWindow y monthQ).1 ≤ tsOf e.clockIn) <;>
            cases h5 : decide (tsOf e.clockIn ≤ (reportWindow y monthQ).2) <;>
              simp [h1, h2, h3, h4, h5]
  have hzero : (((entries.filter (closedInWindow emp y monthQ)).filter
      (fun e => !e.hoursWorked.isSome)).map hwOf).sum = 0 := by
    apply List.sum_eq_zero
    intro q hq
    rw [List.mem_map] at hq
    obtain ⟨e, he, hq⟩ := hq
    rw [List.mem_filter] at he
    have h3 : e.hoursWorked = none := by
      cases h : e.hoursWorked with
      | none => rfl
      | some v =>
        have h2 := he.2
        rw [h] at h2
        simp at h2
    rw [← hq]
    show hwOf e = 0
    unfold hwOf
    rw [h3]
    rfl
  rw [hA, hzero, add_zero] at hsplit
  exact hsplit

lemma windowEntries_eq_closed (emp y : Nat) (monthQ : Option Nat)
    (entries : List REntry)
    (hcw : ∀ e ∈ entries, e.clockOut.isSome = true →
      e.hoursWorked.isSome = true) :
    windowEntries emp y monthQ entries
      = entries.filter (closedInWindow emp y monthQ) := by
  unfold windowEntries
  apply List.filter_congr
  intro e he
  unfold closedInWindow
  cases h2 : e.clockOut.isSome with
  | false =>
    simp [h2]
  | true =>
    have h3 := hcw e he h2
    cases h1 : (e.employeeId == emp) <;>
      cases h4 : decide ((reportWindow y monthQ).1 ≤ tsOf e.clockIn) <;>
        cases h5 : decide (tsOf e.clockIn ≤ (reportWindow y monthQ).2) <;>
          simp [h1, h2, h3, h4, h5]

lemma buildReport_months_mem (emp y : Nat) (monthQ : Option Nat)
    (entries : List REntry) (M : RMonth)
    (hM : M ∈ (buildReport emp y monthQ entries).1.months) :
    ∃ m, M = buildMonth y (windowEntries emp y monthQ entries) m := by
  simp only [buildReport] at hM
  rw [List.mem_filter] at hM
  obtain ⟨hmem, -⟩ := hM
  rw [List.mem_map] at hmem
  obtain ⟨m, -, hmem⟩ := hmem
  exact ⟨m, hmem.symm⟩

lemma buildMonth_structure (y : Nat) (es : List REntry) (m : Nat) :
    (buildMonth y es m).totalHours
      = ((buildMonth y es m).weeks.map (fun W => W.totalHours)).sum
    ∧ ∀ W ∈ (buildMonth y es m).weeks,
        W.totalHours = (W.days.map (fun D => D.hours)).sum := by
  constructor
  · rfl
  · intro W hW
    simp only [buildMonth] at hW
    rw [List.mem_map] at hW
    obtain ⟨i, -, hW⟩ := hW
    rw [← hW]
    rfl

/-- C6: in `BuildReport(employeeId, year, month?)` the sum of all day-level
hours equals the sum of `hoursWorked` over every closed entry of that
employee whose clock-in lies in the reporting window; each month total is
the sum of its week totals, each week total the sum of its day values, and
the year total the sum of the included month totals. -/
theorem report_aggregation (emp y : Nat) (monthQ : Option Nat)
    (entries : List REntry) (hy : 1970 ≤ y)
    (hmq : ∀ m, monthQ = some m → 1 ≤ m ∧ m ≤ 12)
    (hv : ∀ e ∈ entries, ValidDT e.clockIn)
    (hnn : ∀ e ∈ entries, 0 ≤ hwOf e) :
    reportDaySum (buildReport emp y monthQ entries).1
        = ((entries.filter (closedInWindow emp y monthQ)).map hwOf).sum ∧
    (∀ M ∈ (buildReport emp y monthQ entries).1.months,
      M.totalHours = (M.weeks.map (fun W => W.totalHours)).sum ∧
      ∀ W ∈ M.weeks, W.totalHours = (W.days.map (fun D => D.hours)).sum) ∧
    (buildReport emp y monthQ entries).1.totalHours
        = ((buildReport emp y monthQ entries).1.months.map
            (fun M => M.totalHours)).sum := by
  have hstruct : ∀ M ∈ (buildReport emp y monthQ entries).1.months,
      M.totalHours = (M.weeks.map (fun W => W.totalHours)).sum ∧
      ∀ W ∈ M.weeks, W.totalHours = (W.days.map (fun D => D.hours)).sum := by
    intro M hM
    obtain ⟨m, hMe⟩ := buildReport_months_mem emp y monthQ entries M hM
    rw [hMe]
    exact ⟨(buildMonth_structure y _ m).1, (buildMonth_structure y _ m).2⟩
  refine ⟨?_, hstruct, rfl⟩
  have h1 : reportDaySum (buildReport emp y monthQ entries).1
      = ((buildReport emp y monthQ entries).1.months.map
          (fun M => M.totalHours)).sum := by
    unfold reportDaySum
    apply congrArg List.sum
    apply List.map_congr_left
    intro M hM
    have hs := hstruct M hM
    rw [hs.1]
    apply congrArg List.sum
    apply List.map_congr_left
    intro W hW
    exact (hs.2 W hW).symm
  have h2 : ((buildReport emp y monthQ entries).1.months.map
      (fun M => M.totalHours)).sum
      = ((windowEntries emp y monthQ entries).map hwOf).sum := by
    have hnnEs : ∀ e ∈ windowEntries emp y monthQ entries, 0 ≤ hwOf e :=
      fun e he => hnn e (windowEntries_mem emp y monthQ entries e he).1
    have hnnM : ∀ M ∈ (monthsToProcess monthQ).map
        (buildMonth y (windowEntries emp y monthQ entries)), 0 ≤ M.totalHours := by
      intro M hM
      rw [List.mem_map] at hM
      obtain ⟨m, -, hM⟩ := hM
      rw [← hM]
      exact buildMonth_nonneg y _ m hnnEs
    simp only [buildReport]
    rw [included_months_total monthQ _ hnnM, List.map_map]
    exact processed_total emp y monthQ entries hy hmq hv
  exact h1.trans (h2.trans (windowEntries_sum_eq emp y monthQ entries))

theorem report_aggregation_witness :
    1970 ≤ 2024 ∧
    reportDaySum (buildReport 1 2024 (some 5)
        [REntry.mk 1 (DateTime.mk 2024 5 5 3600000) (some 3600000) (some 1)]).1
      = (([REntry.mk 1 (DateTime.mk 2024 5 5 3600000) (some 3600000)
            (some 1)].filter (closedInWindow 1 2024 (some 5))).map hwOf).sum :=
  ⟨by norm_num,
   (report_aggregation 1 2024 (some 5)
      [REntry.mk 1 (DateTime.mk 2024 5 5 3600000) (some 3600000) (some 1)]
      (by norm_num)
      (fun m hm => by injection hm with h; omega)
      (fun e he => by
        rw [List.mem_singleton] at he
        subst he
        exact ⟨by decide, by decide, by decide, by decide, by decide, by decide⟩)
      (fun e he => by
        rw [List.mem_singleton] at he
        subst he
        norm_num [hwOf])).1⟩

/-- C7 counterexample: with two same-day closed entries in May 2024 the
report's `daysWorked` is 2 (the entry count), while the number of distinct
calendar days having at least one entry is 1, so `daysWorked` is not the
number of distinct days with activity. -/
theorem daysWorked_counts_entries_not_days :
    (buildReport 1 2024 (some 5)
      [REntry.mk 1 (DateTime.mk 2024 5 5 3600000) (some 3600000) (some 1),
       REntry.mk 1 (DateTime.mk 2024 5 5 7200000) (some 7200000)
         (some 2)]).2.daysWorked = 2
    ∧ (([REntry.mk 1 (DateTime.mk 2024 5 5 3600000) (some 3600000) (some 1),
         REntry.mk 1 (DateTime.mk 2024 5 5 7200000) (some 7200000)
           (some 2)].map (fun e => dayKey (tsOf e.clockIn))).dedup).length
        = 1 := by
  constructor
  · rfl
  · rfl

/-- C7, amended: the summary's `totalEntries` is the number of completed
entries (non-null hours) of the employee whose clock-in lies in the window,
`averageHoursPerDay` is the total hours divided by that entry count (per
entry, not per day), and `daysWorked` equals `totalEntries` — the entry
count, not the number of distinct calendar days with activity. -/
theorem summary_statistics (emp y : Nat) (monthQ : Option Nat)
    (entries : List REntry)
    (hcw : ∀ e ∈ entries, e.clockOut.isSome = true →
      e.hoursWorked.isSome = true) :
    (buildReport emp y monthQ entries).2.totalEntries
        = (entries.filter (closedInWindow emp y monthQ)).length ∧
    (buildReport emp y monthQ entries).2.daysWorked
        = (buildReport emp y monthQ entries).2.totalEntries ∧
    (buildReport emp y monthQ entries).2.totalHours
        = (buildReport emp y monthQ entries).1.totalHours ∧
    (buildReport emp y monthQ entries).2.averageHoursPerDay
        = (if 0 < (buildReport emp y monthQ entries).2.totalEntries
            then (buildReport emp y monthQ entries).2.totalHours
                  / ((buildReport emp y monthQ entries).2.totalEntries : ℚ)
            else 0) := by
  refine ⟨?_, rfl, rfl, rfl⟩
  show (windowEntries emp y monthQ entries).length
      = (entries.filter (closedInWindow emp y monthQ)).length
  rw [windowEntries_eq_closed emp y monthQ entries hcw]

theorem summary_statistics_witness :
    (∀ e ∈ [REntry.mk 1 (DateTime.mk 2024 5 5 3600000) (some 3600000)
        (some 1)], e.clockOut.isSome = true → e.hoursWorked.isSome = true) ∧
    (buildReport 1 2024 (some 5)
        [REntry.mk 1 (DateTime.mk 2024 5 5 3600000) (some 3600000)
          (some 1)]).2.totalEntries
      = ([REntry.mk 1 (DateTime.mk 2024 5 5 3600000) (some 3600000)
          (some 1)].filter (closedInWindow 1 2024 (some 5))).length :=
  ⟨fun e he _ => by
      rw [List.mem_singleton] at he
      subst he
      rfl,
   (summary_statistics 1 2024 (some 5)
      [REntry.mk 1 (DateTime.mk 2024 5 5 3600000) (some 3600000) (some 1)]
      (fun e he _ => by
        rw [List.mem_singleton] at he
        subst he
        rfl)).1⟩

end TimeApp
